import Mathlib

/-
Verification development for the Maglev straight-forward register allocator
(src/maglev/maglev-regalloc.cc and src/maglev/maglev-regalloc-data.h).

The allocator state is embedded shallowly:
 * the register file `register_values_` becomes a list of optional node ids
   (a `LiveNodeInfo*` is identified by the id of the node it describes, since
   `values_` holds exactly one record per node);
 * the `values_` map becomes an association list from node id to `VInfo`;
 * the spill-slot free list `free_slots_` becomes a list of slot indices;
 * allocated operands become the inductive `Operand`;
 * the textual trace emitted under `FLAG_trace_maglev_regalloc` becomes a list
   of `TraceEv` events returned next to the state, so that the tracing flag can
   be reasoned about explicitly.

Machine registers are represented by their dense allocatable index: the source
maps `Register` to `[0, kAllocatableGeneralRegisterCount)` through the
constexpr bijections `MapRegisterToIndex` / `MapIndexToRegister` built from the
architecture-specific register list (which is outside this repository), so the
bijection is modelled as the identity on indices.
-/

set_option autoImplicit false

/-- An allocated operand: a machine register (by allocatable index) or a stack
slot (by frame index, negative indices being caller-provided fixed slots). -/
inductive Operand where
  | regOp (i : Nat)
  | slotOp (idx : Int)
deriving DecidableEq, Repr

/-- The liveness record `LiveNodeInfo` (declared in maglev-regalloc.h, used
throughout maglev-regalloc.cc): the current register (if any), the current
stack slot (if any), the dynamically updated next-use id and the last-use id.
The described node is the association-list key, not a field. -/
structure VInfo where
  reg : Option Nat
  slot : Option Int
  nextUse : Nat
  lastUse : Nat
deriving DecidableEq, Repr

/-- One event of the textual trace emitted when `FLAG_trace_maglev_regalloc`
is set. The exact text is irrelevant; only which events are emitted is kept. -/
inductive TraceEv where
  | spillEv (nid : Nat) (idx : Int)
  | gapMoveEv (src tgt : Operand)
  | processEv (nid : Nat)
  | phiReuseEv (pid : Nat)
  | phiNewRegEv (pid : Nat)
  | phiStackEv (pid : Nat)
  | blockEv (idx : Nat)
deriving DecidableEq, Repr

/-- One entry of a successor block's `RegisterState` array once initialized:
either no node (a null pointer with `initialized_node` flags), a single node
(the single-node encoding), or a `RegisterMerge` (canonical node plus a
predecessor-indexed operand array). -/
inductive RegEntry where
  | noneEntry
  | nodeEntry (nid : Nat)
  | mergeEntry (nid : Nat) (operands : List Operand)
deriving DecidableEq, Repr

/-- The allocator state. `regs` is `register_values_` (one optional record per
allocatable register), `values` is the `values_` map, `freeSlots` is
`free_slots_`, `topOfStack` is `top_of_stack_`. `moves` collects the inserted
gap moves (source, target) in insertion order, `decors` the operand
decorations written into the graph (keyed by the decorated node), `temps` the
temporary register lists handed to nodes, and `mergeTables` the per-target
`RegisterState` arrays (`none` = not yet initialized). -/
structure TState where
  regs : List (Option Nat)
  values : List (Nat × VInfo)
  freeSlots : List Int
  topOfStack : Nat
  moves : List (Operand × Operand)
  decors : List (Nat × Operand)
  temps : List (Nat × List Nat)
  mergeTables : List (Option (List RegEntry))
deriving DecidableEq, Repr

/-- First value bound to a key in an association list (the `values_.find`
idiom of the source). -/
def findVal (vs : List (Nat × VInfo)) (k : Nat) : Option VInfo :=
  match vs with
  | [] => none
  | (k2, v) :: rest => if k2 = k then some v else findVal rest k

/-- Apply `f` to the record stored under key `k` (mutation of the record the
source reaches through a `LiveNodeInfo*`). -/
def updateVal (vs : List (Nat × VInfo)) (k : Nat) (f : VInfo → VInfo) :
    List (Nat × VInfo) :=
  match vs with
  | [] => []
  | (k2, v) :: rest =>
      if k2 = k then (k2, f v) :: updateVal rest k f
      else (k2, v) :: updateVal rest k f

/-- Remove the record stored under key `k` (the `values_.erase(it)` of the
source). -/
def eraseVal (vs : List (Nat × VInfo)) (k : Nat) : List (Nat × VInfo) :=
  match vs with
  | [] => []
  | (k2, v) :: rest =>
      if k2 = k then eraseVal rest k else (k2, v) :: eraseVal rest k

/-- The constexpr bijection `MapIndexToRegister` of maglev-regalloc-data.h,
modelled as the identity on dense allocatable indices (the architectural
register list `ALWAYS_ALLOCATABLE_GENERAL_REGISTERS` is outside this
repository, so registers are represented by their index). -/
def mapIndexToRegister (i : Nat) : Nat := i

/-- The constexpr bijection `MapRegisterToIndex`, inverse of
`mapIndexToRegister`. -/
def mapRegisterToIndex (r : Nat) : Nat := r

/-- Ids of the successor block `T` needed by the allocator:
`first_id()`, its control node's `id()`, and `FirstNonGapMoveId()`. -/
structure TargetDesc where
  firstId : Nat
  controlId : Nat
  firstNonGapMoveId : Nat
deriving DecidableEq, Repr

/-- `IsLiveAtTarget` (maglev-regalloc.cc): a null record is never live; if
`target->control_node()->id() <= source->id()` (looping) the record's node id
must precede `target->FirstNonGapMoveId()`; otherwise its `last_use` must
reach `target->first_id()`. The record is paired with the id of the node it
describes. -/
def isLiveAtTarget (entry : Option (Nat × VInfo)) (sourceId : Nat)
    (tgt : TargetDesc) : Bool :=
  match entry with
  | none => false
  | some (nid, info) =>
      if tgt.controlId ≤ sourceId then decide (nid < tgt.firstNonGapMoveId)
      else decide (tgt.firstId ≤ info.lastUse)

/-- The liveness-at-target test exactly as the spec words it (section 4.8):
the back-edge case is guarded by `T.first_id ≤ S.id` instead of the control
node's id. Used only to compare against `isLiveAtTarget`. -/
def isLiveAtTargetSpec (entry : Option (Nat × VInfo)) (sourceId : Nat)
    (tgt : TargetDesc) : Bool :=
  match entry with
  | none => false
  | some (nid, info) =>
      if tgt.firstId ≤ sourceId then decide (nid < tgt.firstNonGapMoveId)
      else decide (tgt.firstId ≤ info.lastUse)

/-- Modelled from the spec (section 3 and LiveNodeInfo::allocation() in
maglev-regalloc.h, which is not under src/): a record's current location is
its register when one is set, otherwise its stack slot. The slot-less,
register-less case is unreachable by the record invariant; it is mapped to
slot 0. -/
def allocationOf (v : VInfo) : Operand :=
  match v.reg with
  | some r => Operand.regOp r
  | none =>
      match v.slot with
      | some idx => Operand.slotOp idx
      | none => Operand.slotOp 0

/-- Current allocation of the record of node `nid` (the source dereferences a
`LiveNodeInfo*`; a missing record is unreachable there). -/
def allocAt (ts : TState) (nid : Nat) : Operand :=
  match findVal ts.values nid with
  | some v => allocationOf v
  | none => Operand.slotOp 0

/-- `SetRegister`: store the record in `register_values_[index]` and point the
record's `reg` field at the register. (The source's DCHECK that the entry was
empty or already this record is a debug assertion, not modelled.) -/
def setRegister (reg nid : Nat) (ts : TState) : TState :=
  { ts with
    regs := ts.regs.set (mapRegisterToIndex reg) (some nid),
    values := updateVal ts.values nid (fun v => { v with reg := some reg }) }

/-- `DoAllocate`: SetRegister plus the allocated operand for the register. -/
def doAllocate (reg nid : Nat) (ts : TState) : TState × Operand :=
  (setRegister reg nid ts, Operand.regOp reg)

/-- `AllocateSpillSlot`: pop the head of `free_slots_` if nonempty, otherwise
allocate a new slot at `top_of_stack_++`, and store it on the record. The
initial `top_of_stack_` of 0 is modelled from the spec (first spill takes
slot 0). Returns the chosen slot index next to the state. -/
def allocateSpillSlot (nid : Nat) (ts : TState) : TState × Int :=
  match ts.freeSlots with
  | [] =>
      let idx : Int := Int.ofNat ts.topOfStack
      ({ ts with
          topOfStack := ts.topOfStack + 1,
          values := updateVal ts.values nid (fun v => { v with slot := some idx }) },
       idx)
  | h :: t =>
      ({ ts with
          freeSlots := t,
          values := updateVal ts.values nid (fun v => { v with slot := some h }) },
       h)

/-- `Spill`: no-op when the record already has a stack slot, otherwise
allocate one (emitting a trace line when `FLAG_trace_maglev_regalloc`).
The `info->node->Spill(slot)` graph decoration is reflected by the record's
slot field. -/
def spill (flag : Bool) (nid : Nat) (ts : TState) : TState × List TraceEv :=
  match findVal ts.values nid with
  | none => (ts, [])
  | some info =>
      if info.slot.isSome then (ts, [])
      else
        let p := allocateSpillSlot nid ts
        (p.1, if flag then [TraceEv.spillEv nid p.2] else [])

/-- Append a gap move before the current node (`AddMoveBeforeCurrentNode`);
the cursor bookkeeping of the source collapses to appending to the move
list in program order. -/
def addMoveBeforeCurrentNode (src tgt : Operand) (ts : TState) : TState :=
  { ts with moves := ts.moves ++ [(src, tgt)] }

/-- Result of the register scan in the `try_move` branch of `Free`: either a
register already holding the record (return immediately), or the last free
register seen (none if no free register). -/
inductive ScanResult where
  | aliasAt (i : Nat)
  | lastFree (i : Option Nat)
deriving DecidableEq, Repr

/-- The `try_move` scan of `Free`: walk all register indices in order,
skipping `skip`; remember the last empty entry; stop at the first entry that
already holds the record. -/
def scanTryMove (regs : List (Option Nat)) (skip nid : Nat) :
    List Nat → Option Nat → ScanResult
  | [], acc => ScanResult.lastFree acc
  | i :: rest, acc =>
      if i = skip then scanTryMove regs skip nid rest acc
      else
        match regs.get? i with
        | some none => scanTryMove regs skip nid rest (some i)
        | some (some m) =>
            if m = nid then ScanResult.aliasAt i
            else scanTryMove regs skip nid rest acc
        | none => scanTryMove regs skip nid rest acc

/-- `Free(reg, try_move)`: clear the register file entry; if the record still
has a different register, done; otherwise clear its `reg` field, and if it has
no spill slot either move it (try_move: last free register, with a gap move)
or re-point it at another register holding it, spilling as a last resort. -/
def freeReg (flag : Bool) (reg : Nat) (tryMove : Bool) (ts : TState) :
    TState × List TraceEv :=
  match ts.regs.get? (mapRegisterToIndex reg) with
  | none => (ts, [])
  | some none => (ts, [])
  | some (some nid) =>
      let ts1 := { ts with regs := ts.regs.set (mapRegisterToIndex reg) none }
      match findVal ts1.values nid with
      | none => (ts1, [])
      | some info =>
          if info.reg ≠ some reg then (ts1, [])
          else
            let ts2 :=
              { ts1 with
                values := updateVal ts1.values nid (fun v => { v with reg := none }) }
            if info.slot.isSome then (ts2, [])
            else if tryMove then
              match scanTryMove ts2.regs (mapRegisterToIndex reg) nid
                  (List.range ts2.regs.length) none with
              | ScanResult.aliasAt i =>
                  ({ ts2 with
                      values := updateVal ts2.values nid
                        (fun v => { v with reg := some (mapIndexToRegister i) }) },
                   [])
              | ScanResult.lastFree (some i) =>
                  let targetReg := mapIndexToRegister i
                  let ts3 := setRegister targetReg nid ts2
                  let src := Operand.regOp reg
                  let tgt := Operand.regOp targetReg
                  (addMoveBeforeCurrentNode src tgt ts3,
                   if flag then [TraceEv.gapMoveEv src tgt] else [])
              | ScanResult.lastFree none => spill flag nid ts2
            else
              match (List.range ts2.regs.length).find?
                  (fun i => ts2.regs.get? i == some (some nid)) with
              | some i =>
                  ({ ts2 with
                      values := updateVal ts2.values nid
                        (fun v => { v with reg := some (mapIndexToRegister i) }) },
                   [])
              | none => spill flag nid ts2

/-- `TryAllocateRegister`: take the first empty register, or fail. -/
def tryAllocateRegister (nid : Nat) (ts : TState) : TState × Option Operand :=
  match (List.range ts.regs.length).find? (fun i => (ts.regs.get? i) == some none) with
  | none => (ts, none)
  | some i =>
      (setRegister (mapIndexToRegister i) nid ts,
       some (Operand.regOp (mapIndexToRegister i)))

/-- Next-use id of the record occupying register index `i` (the
`register_values_[i]->next_use` dereference; empty entries never reach it in
the source and are mapped to 0). -/
def nextUseAt (ts : TState) (i : Nat) : Nat :=
  match ts.regs.get? i with
  | some (some nid) =>
      match findVal ts.values nid with
      | some v => v.nextUse
      | none => 0
  | _ => 0

/-- The eviction scan of `AllocateRegister`: keep the index with the strictly
larger next-use, so ties keep the earlier (lower) index. The source loops
from index 1 with `furthest = 0`; folding the full range from 0 is identical
because the first comparison is reflexive. -/
def furthestIn (ts : TState) (acc : Nat) : List Nat → Nat
  | [] => acc
  | i :: rest =>
      furthestIn ts (if nextUseAt ts acc < nextUseAt ts i then i else acc) rest

/-- Index chosen by `AllocateRegister` when no register is free. -/
def furthestIndex (ts : TState) : Nat :=
  furthestIn ts 0 (List.range ts.regs.length)

/-- `ForceAllocate(reg, info, try_move)`: no-op when the register already
holds the record, otherwise free the register and allocate into it. -/
def forceAllocate (flag : Bool) (reg nid : Nat) (tryMove : Bool) (ts : TState) :
    TState × Operand × List TraceEv :=
  if ts.regs.get? (mapRegisterToIndex reg) = some (some nid) then
    (ts, Operand.regOp reg, [])
  else
    let p := freeReg flag reg tryMove ts
    let q := doAllocate reg nid p.1
    (q.1, q.2, p.2)

/-- `AllocateRegister`: TryAllocateRegister, else evict the occupant with the
maximum next-use (ties to the lowest index) via ForceAllocate with
`try_move = false`. -/
def allocateRegister (flag : Bool) (nid : Nat) (ts : TState) :
    TState × Operand × List TraceEv :=
  match tryAllocateRegister nid ts with
  | (ts1, some op) => (ts1, op, [])
  | (_, none) =>
      forceAllocate flag (mapIndexToRegister (furthestIndex ts)) nid false ts

/-- `CombineRegLists` with `Register::ListOf(reg)`: RegList is a bit set, so
adding a register already present leaves the list unchanged. -/
def insertReg (l : List Nat) (r : Nat) : List Nat :=
  if l.contains r then l else l ++ [r]

/-- The first loop of `GetFreeRegisters`: collect empty registers in index
order, returning early once `count` registers have been gathered. Returns the
remaining count and the gathered list. -/
def collectFree : List (Option Nat) → Nat → Nat → List Nat → Nat × List Nat
  | [], _, count, acc => (count, acc)
  | none :: rest, i, count, acc =>
      let acc2 := insertReg acc (mapIndexToRegister i)
      if count ≤ 1 then (0, acc2) else collectFree rest (i + 1) (count - 1) acc2
  | some _ :: rest, i, count, acc => collectFree rest (i + 1) count acc

/-- One pass of the inner scan of `GetFreeRegisters`' eviction loop: update
`(furthest_use, longest)` over all occupied registers. `longest` is an `Int`
because the source initializes it to -1. -/
def scanFurthest (ts : TState) (fu : Nat) (lg : Int) : Nat × Int :=
  (List.range ts.regs.length).foldl
    (fun p i =>
      match ts.regs.get? i with
      | some (some _) =>
          if nextUseAt ts i > p.1 then (nextUseAt ts i, Int.ofNat i) else p
      | _ => p)
    (fu, lg)

/-- The eviction loop of `GetFreeRegisters`. Note that, as in the source,
`furthest_use` and `longest` persist ACROSS iterations of the while loop, so a
second iteration whose occupied registers all have next-use not above the
previous maximum re-frees the already freed register. A `longest` of -1 after
the scan is `UNREACHABLE` in the source (its DCHECK fails) and returns the
state unchanged here. -/
def evictLoop (flag : Bool) :
    Nat → Nat → Int → TState → List Nat → TState × List Nat × List TraceEv
  | 0, _, _, ts, acc => (ts, acc, [])
  | count + 1, fu, lg, ts, acc =>
      let p := scanFurthest ts fu lg
      match p.2 with
      | Int.negSucc _ => (ts, acc, [])
      | Int.ofNat longest =>
          let reg := mapIndexToRegister longest
          let q := freeReg flag reg false ts
          let r := evictLoop flag count p.1 p.2 q.1 (insertReg acc reg)
          (r.1, r.2.1, q.2 ++ r.2.2)

/-- `GetFreeRegisters(count)`: gather `count` free registers, evicting
farthest-next-use occupants when not enough registers are free. -/
def getFreeRegisters (flag : Bool) (count : Nat) (ts : TState) :
    TState × List Nat × List TraceEv :=
  if count = 0 then (ts, [], [])
  else
    let c := collectFree ts.regs 0 count []
    if c.1 = 0 then (ts, c.2, [])
    else evictLoop flag c.1 0 (-1) ts c.2

/-- `AssignTemporaries`: hand `num_temporaries_needed()` free registers to the
node. -/
def assignTemporaries (flag : Bool) (nid count : Nat) (ts : TState) :
    TState × List TraceEv :=
  let p := getFreeRegisters flag count ts
  ({ p.1 with temps := p.1.temps ++ [(nid, p.2.1)] }, p.2.2)

/-- `SpillRegisters`: spill every occupied register, leaving the register
file untouched. -/
def spillRegistersLoop (flag : Bool) :
    List Nat → TState → TState × List TraceEv
  | [], ts => (ts, [])
  | i :: rest, ts =>
      match ts.regs.get? i with
      | some (some nid) =>
          let p := spill flag nid ts
          let q := spillRegistersLoop flag rest p.1
          (q.1, p.2 ++ q.2)
      | _ => spillRegistersLoop flag rest ts

/-- `SpillRegisters` over the whole register file. -/
def spillRegisters (flag : Bool) (ts : TState) : TState × List TraceEv :=
  spillRegistersLoop flag (List.range ts.regs.length) ts

/-- `SpillAndClearRegisters`: spill every occupied register, clear its `reg`
field and empty the register file entry. -/
def spillAndClearLoop (flag : Bool) :
    List Nat → TState → TState × List TraceEv
  | [], ts => (ts, [])
  | i :: rest, ts =>
      match ts.regs.get? i with
      | some (some nid) =>
          let p := spill flag nid ts
          let ts2 :=
            { p.1 with
              values := updateVal p.1.values nid (fun v => { v with reg := none }),
              regs := p.1.regs.set i none }
          let q := spillAndClearLoop flag rest ts2
          (q.1, p.2 ++ q.2)
      | _ => spillAndClearLoop flag rest ts

/-- `SpillAndClearRegisters` over the whole register file. -/
def spillAndClearRegisters (flag : Bool) (ts : TState) : TState × List TraceEv :=
  spillAndClearLoop flag (List.range ts.regs.length) ts

/-- Operand policy of an input (`UnallocatedOperand::extended_policy`),
restricted to the subset the allocator supports for inputs; the remaining
policies are `UNREACHABLE` in `AssignInput`. -/
inductive InputPolicy where
  | anyPolicy
  | fixedRegPolicy (r : Nat)
  | mustHaveRegPolicy
deriving DecidableEq, Repr

/-- One input of a node: the used value's node id, the input's operand policy,
the id of the next use after this node (`next_use_id()`), and the end of the
value's live range (`node->live_range().end`). -/
structure InputDesc where
  nid : Nat
  policy : InputPolicy
  nextUseId : Nat
  rangeEnd : Nat
deriving DecidableEq, Repr

/-- `UpdateInputUseAndClearDead`: when the input's value dies at `use`, clear
it from the register file, return a locally allocated stack slot (the source
tests `slot.index() > 0`) to the free list, and erase the record; a missing
record means a duplicate input already freed it. Otherwise store the input's
`next_use_id` on the record. -/
def updateInputUseAndClearDead (use : Nat) (inp : InputDesc) (ts : TState) :
    TState :=
  let it := findVal ts.values inp.nid
  if inp.rangeEnd = use then
    match it with
    | none => ts
    | some info =>
        let regs2 := ts.regs.map (fun o => if o == some inp.nid then none else o)
        let free2 :=
          match info.slot with
          | some idx => if idx > 0 then idx :: ts.freeSlots else ts.freeSlots
          | none => ts.freeSlots
        { ts with
          regs := regs2,
          freeSlots := free2,
          values := eraseVal ts.values inp.nid }
  else
    match it with
    | none => ts
    | some _ =>
        { ts with
          values := updateVal ts.values inp.nid
            (fun v => { v with nextUse := inp.nextUseId }) }

/-- Modelled from the spec: `MakeLive` (maglev-regalloc.h, not under src/)
creates the liveness record of a newly defined value, with no register and no
slot, carrying the value's next-use and last-use ids. -/
def makeLive (nid nextUse lastUse : Nat) (ts : TState) : TState :=
  { ts with
    values := ts.values ++ [(nid, { reg := none, slot := none,
                                    nextUse := nextUse, lastUse := lastUse })] }

/-- Modelled from the spec: the default of `ForceAllocate`'s `try_move`
parameter is declared in maglev-regalloc.h (not under src/); section 4.6
describes moving rather than spilling as the normal behaviour, so the default
is modelled as true. No theorem below depends on this value. -/
def kDefaultTryMove : Bool := true

/-- `AssignInput`: decorate one input according to its policy, emitting a gap
move when the chosen location differs from the record's current location.
Returns the allocated operand. -/
def assignInputStep (flag : Bool) (inp : InputDesc) (ts : TState) :
    TState × Operand × List TraceEv :=
  let location :=
    match findVal ts.values inp.nid with
    | some v => allocationOf v
    | none => Operand.slotOp 0
  let p :=
    match inp.policy with
    | InputPolicy.anyPolicy => (ts, location, ([] : List TraceEv))
    | InputPolicy.fixedRegPolicy r => forceAllocate flag r inp.nid kDefaultTryMove ts
    | InputPolicy.mustHaveRegPolicy =>
        match location with
        | Operand.regOp _ => (ts, location, ([] : List TraceEv))
        | _ => allocateRegister flag inp.nid ts
  let ts2 := { p.1 with decors := p.1.decors ++ [(inp.nid, p.2.1)] }
  let moved := if location ≠ p.2.1 then addMoveBeforeCurrentNode location p.2.1 ts2
               else ts2
  let tr := p.2.2 ++ (if location ≠ p.2.1 then
              (if flag then [TraceEv.gapMoveEv location p.2.1] else []) else [])
  (moved, p.2.1, tr)

/-- Assign all inputs of a node in order, collecting their operands. -/
def assignInputs (flag : Bool) :
    List InputDesc → TState → TState × List Operand × List TraceEv
  | [], ts => (ts, [], [])
  | inp :: rest, ts =>
      let p := assignInputStep flag inp ts
      let q := assignInputs flag rest p.1
      (q.1, p.2.1 :: q.2.1, p.2.2 ++ q.2.2)

/-- Result policy of a value node (`AllocateNodeResult`), restricted to the
supported subset; the remaining policies are `UNREACHABLE` there. -/
inductive ResultPolicy where
  | fixedSlotPolicy (idx : Int)
  | fixedRegResult (r : Nat)
  | mustHaveRegResult
  | sameAsInputResult (k : Nat)
deriving DecidableEq, Repr

/-- Description of one node handed to `AllocateNode`: its id, inputs,
temporaries count, call/deopt properties, and (for value nodes) the result
policy together with the fresh record's next-use and last-use ids. -/
structure NodeDesc where
  nid : Nat
  inputs : List InputDesc
  numTemporaries : Nat
  isCall : Bool
  canDeopt : Bool
  result : Option ResultPolicy
  resultNextUse : Nat
  resultLastUse : Nat
deriving DecidableEq, Repr

/-- `AllocateNodeResult`: make the node live and allocate its result per its
policy. `inputOps` are the operands just assigned to the node's inputs, used
by the same-as-input policy (`input.AssignedRegister()`); a non-register
operand there is unreachable in the source and leaves the state unchanged. -/
def allocateNodeResult (flag : Bool) (nd : NodeDesc) (inputOps : List Operand)
    (ts : TState) : TState × List TraceEv :=
  let ts := makeLive nd.nid nd.resultNextUse nd.resultLastUse ts
  match nd.result with
  | none => (ts, [])
  | some (ResultPolicy.fixedSlotPolicy idx) =>
      let ts2 :=
        { ts with
          values := updateVal ts.values nd.nid (fun v => { v with slot := some idx }) }
      ({ ts2 with decors := ts2.decors ++ [(nd.nid, Operand.slotOp idx)] }, [])
  | some (ResultPolicy.fixedRegResult r) =>
      let p := forceAllocate flag r nd.nid kDefaultTryMove ts
      ({ p.1 with decors := p.1.decors ++ [(nd.nid, p.2.1)] }, p.2.2)
  | some ResultPolicy.mustHaveRegResult =>
      let p := allocateRegister flag nd.nid ts
      ({ p.1 with decors := p.1.decors ++ [(nd.nid, p.2.1)] }, p.2.2)
  | some (ResultPolicy.sameAsInputResult k) =>
      match inputOps.get? k with
      | some (Operand.regOp r) =>
          let p := forceAllocate flag r nd.nid kDefaultTryMove ts
          ({ p.1 with decors := p.1.decors ++ [(nd.nid, p.2.1)] }, p.2.2)
      | _ => (ts, [])

/-- `AllocateNode`: assign inputs, assign temporaries, update uses and clear
dead values, spill-and-clear on calls, spill on deopts, then allocate the
node's result when it is a value node. The trailing `Process` print under the
tracing flag becomes a `processEv`. -/
def allocateNode (flag : Bool) (nd : NodeDesc) (ts : TState) :
    TState × List TraceEv :=
  let p := assignInputs flag nd.inputs ts
  let q := assignTemporaries flag nd.nid nd.numTemporaries p.1
  let ts1 := nd.inputs.foldl (fun t i => updateInputUseAndClearDead nd.nid i t) q.1
  let r :=
    if nd.isCall then spillAndClearRegisters flag ts1 else (ts1, [])
  let s :=
    if nd.canDeopt then spillRegisters flag r.1 else (r.1, [])
  let u :=
    match nd.result with
    | some _ => allocateNodeResult flag nd p.2.1 s.1
    | none => (s.1, [])
  (u.1,
   p.2.2 ++ q.2 ++ r.2 ++ s.2 ++ u.2 ++
     (if flag then [TraceEv.processEv nd.nid] else []))

/-- `LoadMergeState`: split a `RegisterState` entry into its node (null,
single node, or the merge's canonical node) and, when it is a merge, the
operand array. -/
def loadMergeState : RegEntry → Option Nat × Option (List Operand)
  | RegEntry.noneEntry => (none, none)
  | RegEntry.nodeEntry nid => (some nid, none)
  | RegEntry.mergeEntry nid ops => (some nid, some ops)

/-- The record currently occupying register index `i`, filtered by liveness at
the target (`register_values_[i]` with `IsLiveAtTarget`). -/
def liveIncomingAt (ts : TState) (i sourceId : Nat) (tgt : TargetDesc) :
    Option (Nat × VInfo) :=
  let incoming :=
    match ts.regs.get? i with
    | some (some nid) =>
        match findVal ts.values nid with
        | some v => some (nid, v)
        | none => none
    | _ => none
  if isLiveAtTarget incoming sourceId tgt then incoming else none

/-- The body of `MergeRegisterValues` for one register index `i` of an already
initialized target state. `pc` is the target's predecessor count, `pid` the
merging predecessor's id. The `EnsureInRegister` calls are debug-only checks
and leave the entry unchanged. -/
def mergeOneIndex (ts : TState) (sourceId : Nat) (tgt : TargetDesc)
    (pc pid i : Nat) (entry : RegEntry) : RegEntry :=
  let nodeOpt := (loadMergeState entry).1
  let mergeOps := (loadMergeState entry).2
  let registerInfo := Operand.regOp (mapIndexToRegister i)
  let incoming := liveIncomingAt ts i sourceId tgt
  if incoming.map Prod.fst = nodeOpt then
    match nodeOpt, mergeOps with
    | some mnid, some ops => RegEntry.mergeEntry mnid (ops.set pid registerInfo)
    | _, _ => entry
  else
    match mergeOps, nodeOpt with
    | some ops, some mnid =>
        RegEntry.mergeEntry mnid (ops.set pid (allocAt ts mnid))
    | _, _ =>
        match nodeOpt, incoming with
        | some snid, _ =>
            RegEntry.mergeEntry snid
              ((List.replicate pc registerInfo).set pid (allocAt ts snid))
        | none, some (inid, iv) =>
            match iv.slot with
            | none => entry
            | some sIdx =>
                RegEntry.mergeEntry inid
                  ((List.replicate pc (Operand.slotOp sIdx)).set pid registerInfo)
        | none, none => entry

/-- `InitializeBranchTargetRegisterValues`: the first visit to a target writes
each live incoming record in the single-node encoding and leaves the other
registers empty. -/
def initializeBranchTargetRegisterValues (ts : TState) (sourceId : Nat)
    (tgt : TargetDesc) : List RegEntry :=
  (List.range ts.regs.length).map (fun i =>
    match liveIncomingAt ts i sourceId tgt with
    | some (nid, _) => RegEntry.nodeEntry nid
    | none => RegEntry.noneEntry)

/-- `MergeRegisterValues`: initialize the target state on the first visit,
otherwise merge this predecessor into every register entry. -/
def mergeRegisterValues (ts : TState) (sourceId : Nat) (tgt : TargetDesc)
    (pc pid : Nat) :
    Option (List RegEntry) → Option (List RegEntry)
  | none => some (initializeBranchTargetRegisterValues ts sourceId tgt)
  | some entries =>
      some ((List.range ts.regs.length).map (fun i =>
        mergeOneIndex ts sourceId tgt pc pid i ((entries.get? i).getD RegEntry.noneEntry)))

/-- `InitializeRegisterValues`: clear the register file (also resetting each
occupant's `reg` field), then fill it from the target state, binding each
entry's node (single node or merge canonical node) to its register. -/
def initializeRegisterValues (entries : List RegEntry) (ts : TState) : TState :=
  let cleared :=
    (List.range ts.regs.length).foldl
      (fun t i =>
        match t.regs.get? i with
        | some (some nid) =>
            { t with
              values := updateVal t.values nid (fun v => { v with reg := none }),
              regs := t.regs.set i none }
        | _ => t)
      ts
  (List.range cleared.regs.length).foldl
    (fun t i =>
      match (entries.get? i).map loadMergeState with
      | some (some nid, _) =>
          { t with
            regs := t.regs.set i (some nid),
            values := updateVal t.values nid
              (fun v => { v with reg := some (mapIndexToRegister i) }) }
      | _ => t)
    cleared

/-- The fallthrough branch of `InitializeConditionalBranchRegisters`: clear
every register whose occupant is not live at the fallthrough target. -/
def clearDeadFallthroughRegs (sourceId : Nat) (tgt : TargetDesc) (ts : TState) :
    TState :=
  (List.range ts.regs.length).foldl
    (fun t i =>
      match t.regs.get? i with
      | some (some nid) =>
          match findVal t.values nid with
          | some v =>
              if isLiveAtTarget (some (nid, v)) sourceId tgt then t
              else
                { t with
                  values := updateVal t.values nid (fun w => { w with reg := none }),
                  regs := t.regs.set i none }
          | none => t
      | _ => t)
    ts

/-- One branch-reconciliation action performed at a control node: merge into a
successor's register state (`MergeRegisterValues`, also reached through the
empty-block shortcut and `InitializeBranchTargetRegisterValues`), or clear
dead registers on a conditional fallthrough. `tableIdx` names the successor
block's slot in `mergeTables`. -/
inductive MergeAction where
  | mergeInto (tableIdx : Nat) (tgt : TargetDesc) (pc pid : Nat)
  | clearDeadFallthrough (tgt : TargetDesc)
deriving DecidableEq, Repr

/-- Apply one reconciliation action at source control node `sourceId`. -/
def applyMergeAction (sourceId : Nat) (ts : TState) : MergeAction → TState
  | MergeAction.mergeInto idx tgt pc pid =>
      match ts.mergeTables.get? idx with
      | some tbl =>
          { ts with
            mergeTables :=
              ts.mergeTables.set idx (mergeRegisterValues ts sourceId tgt pc pid tbl) }
      | none => ts
  | MergeAction.clearDeadFallthrough tgt => clearDeadFallthroughRegs sourceId tgt ts

/-- Description of one control node handed to `AllocateControlNode`: id,
inputs, temporaries, call/deopt properties, the target phis to inject into
(phi id paired with this predecessor's input), and the reconciliation
actions derived from the control node's kind. -/
structure CtrlDesc where
  cid : Nat
  inputs : List InputDesc
  numTemporaries : Nat
  isCall : Bool
  canDeopt : Bool
  phiInjections : List (Nat × InputDesc)
  mergeActions : List MergeAction
deriving DecidableEq, Repr

/-- `AllocateControlNode`: assign inputs and temporaries, update uses,
spill-and-clear on calls, inject current allocations into the target's phi
inputs and consume those uses, spill on deopts, then reconcile into the
successors. -/
def allocateControlNode (flag : Bool) (cd : CtrlDesc) (ts : TState) :
    TState × List TraceEv :=
  let p := assignInputs flag cd.inputs ts
  let q := assignTemporaries flag cd.cid cd.numTemporaries p.1
  let ts1 := cd.inputs.foldl (fun t i => updateInputUseAndClearDead cd.cid i t) q.1
  let r := if cd.isCall then spillAndClearRegisters flag ts1 else (ts1, [])
  let ts2 :=
    cd.phiInjections.foldl
      (fun t pi =>
        let loc :=
          match findVal t.values pi.2.nid with
          | some v => allocationOf v
          | none => Operand.slotOp 0
        { t with decors := t.decors ++ [(pi.1, loc)] })
      r.1
  let ts3 :=
    cd.phiInjections.foldl (fun t pi => updateInputUseAndClearDead cd.cid pi.2 t) ts2
  let s := if cd.canDeopt then spillRegisters flag ts3 else (ts3, [])
  let ts4 := cd.mergeActions.foldl (applyMergeAction cd.cid) s.1
  (ts4,
   p.2.2 ++ q.2 ++ r.2 ++ s.2 ++ (if flag then [TraceEv.processEv cd.cid] else []))

/-- One phi of a merge block: its id, its input operands (injected by the
predecessors' control nodes), and the fresh record's next-use and last-use
ids. -/
structure PhiDesc where
  pid : Nat
  inputOps : List Operand
  resNextUse : Nat
  resLastUse : Nat
deriving DecidableEq, Repr

/-- `TryAllocateToInput`: bind the phi to the first of its register inputs
whose register is currently empty. Returns the operand on success. -/
def tryAllocateToInput (flag : Bool) (pid : Nat) :
    List Operand → TState → TState × Option Operand × List TraceEv
  | [], ts => (ts, none, [])
  | op :: rest, ts =>
      match op with
      | Operand.regOp r =>
          if ts.regs.get? (mapRegisterToIndex r) = some none then
            let p := doAllocate r pid ts
            ({ p.1 with decors := p.1.decors ++ [(pid, p.2)] },
             some p.2,
             if flag then [TraceEv.phiReuseEv pid] else [])
          else tryAllocateToInput flag pid rest ts
      | _ => tryAllocateToInput flag pid rest ts

/-- First phi pass: make each phi live and try to allocate it to one of its
input registers. Returns each phi with its allocation status. -/
def phiPassOne (flag : Bool) :
    List PhiDesc → TState → TState × List (PhiDesc × Bool) × List TraceEv
  | [], ts => (ts, [], [])
  | phi :: rest, ts =>
      let ts1 := makeLive phi.pid phi.resNextUse phi.resLastUse ts
      let p := tryAllocateToInput flag phi.pid phi.inputOps ts1
      let q := phiPassOne flag rest p.1
      (q.1, (phi, p.2.1.isSome) :: q.2.1, p.2.2 ++ q.2.2)

/-- Second phi pass: try a free register for each still unallocated phi. -/
def phiPassTwo (flag : Bool) :
    List (PhiDesc × Bool) → TState → TState × List (PhiDesc × Bool) × List TraceEv
  | [], ts => (ts, [], [])
  | (phi, done) :: rest, ts =>
      if done then
        let q := phiPassTwo flag rest ts
        (q.1, (phi, true) :: q.2.1, q.2.2)
      else
        match tryAllocateRegister phi.pid ts with
        | (ts1, some op) =>
            let ts2 := { ts1 with decors := ts1.decors ++ [(phi.pid, op)] }
            let q := phiPassTwo flag rest ts2
            (q.1, (phi, true) :: q.2.1,
             (if flag then [TraceEv.phiNewRegEv phi.pid] else []) ++ q.2.2)
        | (ts1, none) =>
            let q := phiPassTwo flag rest ts1
            (q.1, (phi, false) :: q.2.1, q.2.2)

/-- Third phi pass: allocate a stack slot for each phi still unplaced. -/
def phiPassThree (flag : Bool) :
    List (PhiDesc × Bool) → TState → TState × List TraceEv
  | [], ts => (ts, [])
  | (phi, done) :: rest, ts =>
      if done then phiPassThree flag rest ts
      else
        let p := allocateSpillSlot phi.pid ts
        let ts2 := { p.1 with decors := p.1.decors ++ [(phi.pid, Operand.slotOp p.2)] }
        let q := phiPassThree flag rest ts2
        (q.1, (if flag then [TraceEv.phiStackEv phi.pid] else []) ++ q.2)

/-- Phi resolution at merge-block entry: the three passes of
`AllocateRegisters`' phi handling in order. -/
def processPhis (flag : Bool) (phis : List PhiDesc) (ts : TState) :
    TState × List TraceEv :=
  let p := phiPassOne flag phis ts
  let q := phiPassTwo flag p.2.1 p.1
  let r := phiPassThree flag q.2.1 q.1
  (r.1, p.2.2 ++ q.2.2 ++ r.2)

/-- One step of the block walk of `AllocateRegisters`: restore a block's merge
state into the register file, resolve a block's phis, process an ordinary
node, or process a control node. -/
inductive StepDesc where
  | restoreStep (tableIdx : Nat)
  | phiStep (phis : List PhiDesc)
  | nodeStep (nd : NodeDesc)
  | ctrlStep (cd : CtrlDesc)

/-- Execute one step. The per-block header prints of the source become a
`blockEv` on restore steps. -/
def runStep (flag : Bool) (st : StepDesc) (ts : TState) : TState × List TraceEv :=
  match st with
  | StepDesc.restoreStep idx =>
      match ts.mergeTables.get? idx with
      | some (some entries) =>
          (initializeRegisterValues entries ts,
           if flag then [TraceEv.blockEv idx] else [])
      | _ => (ts, if flag then [TraceEv.blockEv idx] else [])
  | StepDesc.phiStep phis => processPhis flag phis ts
  | StepDesc.nodeStep nd => allocateNode flag nd ts
  | StepDesc.ctrlStep cd => allocateControlNode flag cd ts

/-- The block walk of `AllocateRegisters` over a linearized step list. -/
def runProg (flag : Bool) : List StepDesc → TState → TState × List TraceEv
  | [], ts => (ts, [])
  | st :: rest, ts =>
      let p := runStep flag st ts
      let q := runProg flag rest p.1
      (q.1, p.2 ++ q.2)

/-- Record of node 7: in register 0, spilled to slot 5, live past id 9. -/
def infoC1 : VInfo := { reg := some 0, slot := some 5, nextUse := 9, lastUse := 9 }

/-- State with node 7 in register 0, spilled to slot 5, live past id 9. -/
def stateC1 : TState :=
  { regs := [some 7, none],
    values := [(7, infoC1)],
    freeSlots := [], topOfStack := 0, moves := [], decors := [], temps := [],
    mergeTables := [] }

/-- A forward-edge target whose first id is 6. -/
def targetC1 : TargetDesc := { firstId := 6, controlId := 8, firstNonGapMoveId := 6 }

/-- State with node 1 in register 0 holding locally allocated slot 0, dying at
id 4. -/
def stateC2 : TState :=
  { regs := [some 1, none, none, none],
    values := [(1, { reg := some 0, slot := some 0, nextUse := 4, lastUse := 4 })],
    freeSlots := [], topOfStack := 1, moves := [], decors := [], temps := [],
    mergeTables := [] }

/-- All four registers occupied; next uses 10, 5, 6, 7. -/
def stateC3 : TState :=
  { regs := [some 1, some 2, some 3, some 4],
    values := [(1, { reg := some 0, slot := none, nextUse := 10, lastUse := 20 }),
               (2, { reg := some 1, slot := none, nextUse := 5, lastUse := 20 }),
               (3, { reg := some 2, slot := none, nextUse := 6, lastUse := 20 }),
               (4, { reg := some 3, slot := none, nextUse := 9, lastUse := 20 })],
    freeSlots := [], topOfStack := 0, moves := [], decors := [], temps := [],
    mergeTables := [] }

/-- All four registers occupied; the maximum next use 9 is attained at
indices 1 and 2. -/
def stateC5 : TState :=
  { regs := [some 1, some 2, some 3, some 4],
    values := [(1, { reg := some 0, slot := none, nextUse := 3, lastUse := 20 }),
               (2, { reg := some 1, slot := none, nextUse := 9, lastUse := 20 }),
               (3, { reg := some 2, slot := none, nextUse := 9, lastUse := 20 }),
               (4, { reg := some 3, slot := none, nextUse := 2, lastUse := 20 }),
               (99, { reg := none, slot := none, nextUse := 11, lastUse := 12 })],
    freeSlots := [], topOfStack := 0, moves := [], decors := [], temps := [],
    mergeTables := [] }

/-- State with unspilled node 1 in register 0, live past the next node. -/
def stateC6 : TState :=
  { regs := [some 1, none, none, none],
    values := [(1, { reg := some 0, slot := none, nextUse := 7, lastUse := 7 })],
    freeSlots := [], topOfStack := 0, moves := [], decors := [], temps := [],
    mergeTables := [] }

/-- A call node (no inputs) producing a must-have-register value. -/
def nodeC6 : NodeDesc :=
  { nid := 5, inputs := [], numTemporaries := 0, isCall := true, canDeopt := false,
    result := some ResultPolicy.mustHaveRegResult, resultNextUse := 8,
    resultLastUse := 9 }

/-- State with unspilled node 1 in register 0, live past the next node. -/
def stateC7 : TState :=
  { regs := [some 1, none, none, none],
    values := [(1, { reg := some 0, slot := none, nextUse := 7, lastUse := 7 })],
    freeSlots := [], topOfStack := 0, moves := [], decors := [], temps := [],
    mergeTables := [] }

/-- A deopting non-call node (no inputs) producing a must-have-register
value. -/
def nodeC7 : NodeDesc :=
  { nid := 5, inputs := [], numTemporaries := 0, isCall := false, canDeopt := true,
    result := some ResultPolicy.mustHaveRegResult, resultNextUse := 8,
    resultLastUse := 9 }

/-- State with node 2 in register 0 holding local slot 3, dying at id 6. -/
def stateC10 : TState :=
  { regs := [some 2, none, none, none],
    values := [(2, { reg := some 0, slot := some 3, nextUse := 6, lastUse := 6 })],
    freeSlots := [], topOfStack := 4, moves := [], decors := [], temps := [],
    mergeTables := [] }

/-- An input of node 2 whose last use is id 6. -/
def inputC10 : InputDesc :=
  { nid := 2, policy := InputPolicy.anyPolicy, nextUseId := 0, rangeEnd := 6 }


/-- Decidable well-formedness of the register file: every occupant has a
record in the `values_` map (as every `register_values_` entry is a valid
`LiveNodeInfo*` in the source). -/
def occupantsTracked (ts : TState) : Bool :=
  (List.range ts.regs.length).all (fun i =>
    match ts.regs.get? i with
    | some (some nid) => (findVal ts.values nid).isSome
    | _ => true)


theorem findVal_updateVal_self (vs : List (Nat × VInfo)) (k : Nat)
    (f : VInfo → VInfo) :
    findVal (updateVal vs k f) k = (findVal vs k).map f := by
  induction vs with
  | nil => rfl
  | cons p rest ih =>
      obtain ⟨a, b⟩ := p
      by_cases h : a = k
      · simp [updateVal, findVal, h]
      · simpa [updateVal, findVal, h] using ih

theorem findVal_updateVal_ne (vs : List (Nat × VInfo)) (k k2 : Nat)
    (f : VInfo → VInfo) (h : k2 ≠ k) :
    findVal (updateVal vs k f) k2 = findVal vs k2 := by
  induction vs with
  | nil => rfl
  | cons p rest ih =>
      obtain ⟨a, b⟩ := p
      by_cases hp : a = k
      · simpa [updateVal, findVal, hp, Ne.symm h] using ih
      · by_cases hq : a = k2
        · simp [updateVal, findVal, hp, hq, h]
        · simpa [updateVal, findVal, hp, hq] using ih

theorem findVal_eraseVal_self (vs : List (Nat × VInfo)) (k : Nat) :
    findVal (eraseVal vs k) k = none := by
  induction vs with
  | nil => rfl
  | cons p rest ih =>
      obtain ⟨a, b⟩ := p
      by_cases h : a = k
      · simpa [eraseVal, findVal, h] using ih
      · simpa [eraseVal, findVal, h] using ih

theorem findVal_eraseVal_ne (vs : List (Nat × VInfo)) (k k2 : Nat) (h : k2 ≠ k) :
    findVal (eraseVal vs k) k2 = findVal vs k2 := by
  induction vs with
  | nil => rfl
  | cons p rest ih =>
      obtain ⟨a, b⟩ := p
      by_cases hp : a = k
      · simpa [eraseVal, findVal, hp, Ne.symm h] using ih
      · by_cases hq : a = k2
        · simp [eraseVal, findVal, hp, hq, h]
        · simpa [eraseVal, findVal, hp, hq] using ih

/-- C1: in `MergeRegisterValues`, for a target entry holding no record and an
incoming register-file record live at the target, the merge does NOT store the
record in the single-node encoding: when the record is spilled it builds a
`RegisterMerge` (slot operand for every predecessor seen so far, register
operand for this predecessor); the counterexample evaluates the merge on such
a state and exhibits the merge encoding. -/
theorem mergeRegisterValues_uninitialized_entry_not_single_node :
    isLiveAtTarget (some (7, infoC1)) 4 targetC1 = true
    ∧ mergeRegisterValues stateC1 4 targetC1 2 1
        (some [RegEntry.noneEntry, RegEntry.noneEntry]) =
      some [RegEntry.mergeEntry 7 [Operand.slotOp 5, Operand.regOp 0],
            RegEntry.noneEntry]
    ∧ RegEntry.mergeEntry 7 [Operand.slotOp 5, Operand.regOp 0] ≠
        RegEntry.nodeEntry 7 := by
  decide

/-- C2: `UpdateInputUseAndClearDead` destroys the record of a value dying at
its consuming node but, because the source tests `slot.index() > 0`, it does
not return the locally allocated slot 0 to the free list (while the identical
record holding slot 1 does get its slot returned); slot 0 is leaked,
contradicting the in-source comment that local slots are freed for reuse. -/
theorem updateInputUse_leaks_local_slot_zero :
    (updateInputUseAndClearDead 4
        { nid := 1, policy := InputPolicy.anyPolicy, nextUseId := 0, rangeEnd := 4 }
        stateC2).values = []
    ∧ (updateInputUseAndClearDead 4
        { nid := 1, policy := InputPolicy.anyPolicy, nextUseId := 0, rangeEnd := 4 }
        stateC2).freeSlots = []
    ∧ (updateInputUseAndClearDead 4
        { nid := 1, policy := InputPolicy.anyPolicy, nextUseId := 0, rangeEnd := 4 }
        { stateC2 with
          values := [(1, { reg := some 0, slot := some 1, nextUse := 4,
                           lastUse := 4 })] }).freeSlots = [1] := by
  decide

/-- C3: `GetFreeRegisters` asked for 2 registers on a full register file
returns a RegList containing only 1 register: after evicting index 0 (next
use 10), the stale `furthest_use`/`longest` variables (declared outside the
while loop) make the second iteration re-free the already empty index 0
instead of evicting the remaining farthest occupant, so `AssignTemporaries`
hands the node fewer distinct registers than requested. -/
theorem getFreeRegisters_returns_too_few :
    (getFreeRegisters false 2 stateC3).2.1 = [0]
    ∧ (getFreeRegisters false 2 stateC3).2.1.length = 1
    ∧ (∀ i, i < stateC3.regs.length → stateC3.regs.get? i ≠ some none)
    ∧ (assignTemporaries false 5 2 stateC3).1.temps = [(5, [0])] := by
  decide

/-- C6 counterexample: after `AllocateNode` on a call node that produces a
must-have-register value, the register file is not empty — the node's own
result occupies register 0 — refuting the claim that after processing a call
node every register file entry is empty. -/
theorem call_node_leaves_result_in_register :
    nodeC6.isCall = true
    ∧ (allocateNode false nodeC6 stateC6).1.regs.get? 0 = some (some 5)
    ∧ (allocateNode false nodeC6 stateC6).1.regs.get? 0 ≠ some none := by
  decide

/-- C7 counterexample: after `AllocateNode` on a deopting non-call node that
produces a value, the node's own result occupies register 1 without any stack
slot, and the register file differs from the pre-node file — refuting the
claim that after processing such a node every register occupant has a stack
slot and the register file is unchanged. -/
theorem deopt_node_result_in_register_without_slot :
    nodeC7.canDeopt = true ∧ nodeC7.isCall = false
    ∧ (allocateNode false nodeC7 stateC7).1.regs.get? 1 = some (some 5)
    ∧ findVal (allocateNode false nodeC7 stateC7).1.values 5 =
        some { reg := some 1, slot := none, nextUse := 8, lastUse := 9 }
    ∧ (allocateNode false nodeC7 stateC7).1.regs ≠ stateC7.regs := by
  decide

/-- C10: when a value dies at the consuming node, the first
`UpdateInputUseAndClearDead` call erases its record and clears it from the
register file, and a second call for the same (duplicate) input finds no
record and returns the state untouched — the dead value is freed exactly
once. -/
theorem updateInputUse_frees_dead_value_once (use : Nat) (inp : InputDesc)
    (ts : TState) (v : VInfo) (hdead : inp.rangeEnd = use)
    (hv : findVal ts.values inp.nid = some v) :
    findVal (updateInputUseAndClearDead use inp ts).values inp.nid = none
    ∧ (∀ j, (updateInputUseAndClearDead use inp ts).regs.get? j ≠
        some (some inp.nid))
    ∧ updateInputUseAndClearDead use inp (updateInputUseAndClearDead use inp ts) =
        updateInputUseAndClearDead use inp ts := by
  have hsecond : ∀ ts2 : TState, findVal ts2.values inp.nid = none →
      updateInputUseAndClearDead use inp ts2 = ts2 := by
    intro ts2 h2
    simp [updateInputUseAndClearDead, hdead, h2]
  have h1 : findVal (updateInputUseAndClearDead use inp ts).values inp.nid = none := by
    simp [updateInputUseAndClearDead, hdead, hv, findVal_eraseVal_self]
  refine ⟨h1, ?_, hsecond _ h1⟩
  intro j
  have hregs : (updateInputUseAndClearDead use inp ts).regs =
      ts.regs.map (fun o => if o == some inp.nid then none else o) := by
    simp [updateInputUseAndClearDead, hdead, hv]
  rw [hregs, List.get?_map]
  cases h : ts.regs.get? j with
  | none => simp [h]
  | some o =>
      cases o with
      | none => simp [h]
      | some m =>
          by_cases hm : m = inp.nid <;> simp [h, hm]

/-- Witness for `updateInputUse_frees_dead_value_once` at a concrete dying
input with a duplicate occurrence. -/
theorem updateInputUse_frees_dead_value_once_witness :
    inputC10.rangeEnd = 6
    ∧ findVal stateC10.values inputC10.nid =
        some { reg := some 0, slot := some 3, nextUse := 6, lastUse := 6 }
    ∧ (findVal (updateInputUseAndClearDead 6 inputC10 stateC10).values
          inputC10.nid = none
       ∧ (∀ j, (updateInputUseAndClearDead 6 inputC10 stateC10).regs.get? j ≠
            some (some inputC10.nid))
       ∧ updateInputUseAndClearDead 6 inputC10
            (updateInputUseAndClearDead 6 inputC10 stateC10) =
          updateInputUseAndClearDead 6 inputC10 stateC10) :=
  ⟨by decide, by decide,
   updateInputUse_frees_dead_value_once 6 inputC10 stateC10
     { reg := some 0, slot := some 3, nextUse := 6, lastUse := 6 }
     (by decide) (by decide)⟩

/-- C4: the `IsLiveAtTarget` test agrees with the spec's wording. For a source
control node outside the target block (before its first id, or at or after
its control node's id, the first id never exceeding the control id), the test
branches exactly as specified: on back edges (`T.first_id ≤ S.id`) the record
is live iff its node id is strictly below `T.FirstNonGapMoveId`, on forward
edges iff its `last_use` reaches `T.first_id`. -/
theorem isLiveAtTarget_matches_spec (nid : Nat) (info : VInfo) (sourceId : Nat)
    (tgt : TargetDesc) (hblock : tgt.firstId ≤ tgt.controlId)
    (houtside : sourceId < tgt.firstId ∨ tgt.controlId ≤ sourceId) :
    isLiveAtTarget (some (nid, info)) sourceId tgt =
      isLiveAtTargetSpec (some (nid, info)) sourceId tgt
    ∧ (tgt.firstId ≤ sourceId →
        (isLiveAtTarget (some (nid, info)) sourceId tgt = true ↔
          nid < tgt.firstNonGapMoveId))
    ∧ (sourceId < tgt.firstId →
        (isLiveAtTarget (some (nid, info)) sourceId tgt = true ↔
          tgt.firstId ≤ info.lastUse)) := by
  rcases houtside with h | h
  · have h1 : ¬ tgt.controlId ≤ sourceId := by omega
    have h2 : ¬ tgt.firstId ≤ sourceId := by omega
    refine ⟨by simp [isLiveAtTarget, isLiveAtTargetSpec, h1, h2], ?_, ?_⟩
    · intro hc
      exact absurd hc h2
    · intro _
      simp [isLiveAtTarget, h1]
  · have h2 : tgt.firstId ≤ sourceId := le_trans hblock h
    refine ⟨by simp [isLiveAtTarget, isLiveAtTargetSpec, h, h2], ?_, ?_⟩
    · intro _
      simp [isLiveAtTarget, h]
    · intro hc
      exact absurd h2 (by omega)

/-- Witness for `isLiveAtTarget_matches_spec` on a back edge: target block
starting at 5 with control node 7, source id 9, record of node 2. -/
theorem isLiveAtTarget_matches_spec_witness :
    ({ firstId := 5, controlId := 7, firstNonGapMoveId := 5 } : TargetDesc).firstId ≤ 7
    ∧ (isLiveAtTarget
        (some (2, { reg := some 0, slot := none, nextUse := 10, lastUse := 12 })) 9
        { firstId := 5, controlId := 7, firstNonGapMoveId := 5 } =
      isLiveAtTargetSpec
        (some (2, { reg := some 0, slot := none, nextUse := 10, lastUse := 12 })) 9
        { firstId := 5, controlId := 7, firstNonGapMoveId := 5 }
      ∧ (({ firstId := 5, controlId := 7, firstNonGapMoveId := 5 } : TargetDesc).firstId ≤ 9 →
          (isLiveAtTarget
            (some (2, { reg := some 0, slot := none, nextUse := 10, lastUse := 12 })) 9
            { firstId := 5, controlId := 7, firstNonGapMoveId := 5 } = true ↔
            2 < ({ firstId := 5, controlId := 7, firstNonGapMoveId := 5 } : TargetDesc).firstNonGapMoveId))
      ∧ (9 < ({ firstId := 5, controlId := 7, firstNonGapMoveId := 5 } : TargetDesc).firstId →
          (isLiveAtTarget
            (some (2, { reg := some 0, slot := none, nextUse := 10, lastUse := 12 })) 9
            { firstId := 5, controlId := 7, firstNonGapMoveId := 5 } = true ↔
            ({ firstId := 5, controlId := 7, firstNonGapMoveId := 5 } : TargetDesc).firstId ≤ 12))) :=
  ⟨by decide,
   isLiveAtTarget_matches_spec 2
     { reg := some 0, slot := none, nextUse := 10, lastUse := 12 } 9
     { firstId := 5, controlId := 7, firstNonGapMoveId := 5 }
     (by decide) (Or.inr (by decide))⟩

/-- C1 (amended): in `MergeRegisterValues`, for a register index whose stored
entry of an initialized target holds no record, if the incoming register file
holds a record live at the target then: when the record is spilled, the entry
becomes a `RegisterMerge` with that record as canonical node, every
predecessor operand initialized to the record's stack slot and this
predecessor's operand overwritten with register i; when the record is not
spilled the entry is left without a record (the record is asserted, in debug
builds, to sit elsewhere in the merge state). The single-node encoding is
never stored on this path. -/
theorem mergeRegisterValues_uninitialized_entry (ts : TState) (sourceId : Nat)
    (tgt : TargetDesc) (pc pid i : Nat) (entries : List RegEntry) (nid : Nat)
    (v : VInfo) (hi : i < ts.regs.length)
    (hent : entries.get? i = some RegEntry.noneEntry)
    (hreg : ts.regs.get? i = some (some nid))
    (hv : findVal ts.values nid = some v)
    (hlive : isLiveAtTarget (some (nid, v)) sourceId tgt = true) :
    ∃ res, mergeRegisterValues ts sourceId tgt pc pid (some entries) = some res
      ∧ res.get? i = some (match v.slot with
          | some sIdx => RegEntry.mergeEntry nid
              ((List.replicate pc (Operand.slotOp sIdx)).set pid
                (Operand.regOp (mapIndexToRegister i)))
          | none => RegEntry.noneEntry) := by
  refine ⟨_, rfl, ?_⟩
  rw [List.get?_map, List.get?_range hi]
  simp only [Option.map_some']
  rw [hent]
  have hin : liveIncomingAt ts i sourceId tgt = some (nid, v) := by
    unfold liveIncomingAt
    rw [hreg]
    simp [hv, hlive]
  cases hs : v.slot with
  | none => simp [mergeOneIndex, loadMergeState, hin, hs]
  | some sIdx => simp [mergeOneIndex, loadMergeState, hin, hs]

/-- Witness for `mergeRegisterValues_uninitialized_entry` on a spilled live
incoming record. -/
theorem mergeRegisterValues_uninitialized_entry_witness :
    0 < stateC1.regs.length
    ∧ ([RegEntry.noneEntry, RegEntry.noneEntry].get? 0 = some RegEntry.noneEntry)
    ∧ stateC1.regs.get? 0 = some (some 7)
    ∧ findVal stateC1.values 7 = some infoC1
    ∧ isLiveAtTarget (some (7, infoC1)) 4 targetC1 = true
    ∧ ∃ res, mergeRegisterValues stateC1 4 targetC1 2 1
          (some [RegEntry.noneEntry, RegEntry.noneEntry]) = some res
        ∧ res.get? 0 = some (RegEntry.mergeEntry 7
            ((List.replicate 2 (Operand.slotOp 5)).set 1
              (Operand.regOp (mapIndexToRegister 0)))) :=
  ⟨by decide, by decide, by decide, by decide, by decide,
   mergeRegisterValues_uninitialized_entry stateC1 4 targetC1 2 1 0
     [RegEntry.noneEntry, RegEntry.noneEntry] 7 infoC1
     (by decide) (by decide) (by decide) (by decide) (by decide)⟩

theorem spill_regs (flag : Bool) (nid : Nat) (ts : TState) :
    (spill flag nid ts).1.regs = ts.regs := by
  unfold spill
  cases hv : findVal ts.values nid with
  | none => rfl
  | some info =>
      by_cases hs : info.slot.isSome
      · simp [hs]
      · simp only [hs, Bool.false_eq_true, if_false]
        unfold allocateSpillSlot
        cases hf : ts.freeSlots <;> simp

theorem spill_findVal_ne (flag : Bool) (nid : Nat) (ts : TState) (k : Nat)
    (hk : k ≠ nid) :
    findVal (spill flag nid ts).1.values k = findVal ts.values k := by
  unfold spill
  cases hv : findVal ts.values nid with
  | none => rfl
  | some info =>
      by_cases hs : info.slot.isSome
      · simp [hs]
      · simp only [hs, Bool.false_eq_true, if_false]
        unfold allocateSpillSlot
        cases hf : ts.freeSlots <;> simp [findVal_updateVal_ne _ _ _ _ hk]

theorem spill_findVal_self (flag : Bool) (nid : Nat) (ts : TState) (v : VInfo)
    (hv : findVal ts.values nid = some v) :
    ∃ v2, findVal (spill flag nid ts).1.values nid = some v2 ∧ v2.reg = v.reg ∧
      v2.nextUse = v.nextUse ∧ v2.lastUse = v.lastUse ∧ v2.slot.isSome = true := by
  unfold spill
  rw [hv]
  by_cases hs : v.slot.isSome
  · exact ⟨v, by simp [hs, hv], rfl, rfl, rfl, hs⟩
  · simp only [hs, Bool.false_eq_true, if_false]
    unfold allocateSpillSlot
    cases hf : ts.freeSlots with
    | nil =>
        refine ⟨{ v with slot := some (Int.ofNat ts.topOfStack) }, ?_, rfl, rfl, rfl, rfl⟩
        simp [findVal_updateVal_self, hv]
    | cons h t =>
        refine ⟨{ v with slot := some h }, ?_, rfl, rfl, rfl, rfl⟩
        simp [findVal_updateVal_self, hv]

theorem freeReg_regs_length (flag : Bool) (reg : Nat) (tm : Bool) (ts : TState) :
    (freeReg flag reg tm ts).1.regs.length = ts.regs.length := by
  unfold freeReg
  split
  · rfl
  · rfl
  · rename_i nid heq
    cases hv : findVal ts.values nid with
    | none => simp [hv]
    | some info =>
        simp only [hv]
        repeat' split
        all_goals simp [setRegister, addMoveBeforeCurrentNode, spill_regs]

theorem freeReg_findVal_ne (flag : Bool) (reg : Nat) (tm : Bool) (ts : TState)
    (k : Nat)
    (hk : ∀ occ, ts.regs.get? (mapRegisterToIndex reg) = some (some occ) → k ≠ occ) :
    findVal (freeReg flag reg tm ts).1.values k = findVal ts.values k := by
  unfold freeReg
  split
  · rfl
  · rfl
  · rename_i nid heq
    have hkn : k ≠ nid := hk nid heq
    cases hv : findVal ts.values nid with
    | none => simp [hv]
    | some info =>
        simp only [hv]
        repeat' split
        all_goals simp [setRegister, addMoveBeforeCurrentNode,
          findVal_updateVal_ne _ _ _ _ hkn, spill_findVal_ne flag nid _ k hkn]

theorem furthestIn_cons (ts : TState) (a i : Nat) (rest : List Nat) :
    furthestIn ts a (i :: rest) =
      furthestIn ts (if nextUseAt ts a < nextUseAt ts i then i else a) rest := rfl

theorem furthestIn_max (ts : TState) :
    ∀ (l : List Nat) (a : Nat),
      nextUseAt ts a ≤ nextUseAt ts (furthestIn ts a l) ∧
      ∀ j ∈ l, nextUseAt ts j ≤ nextUseAt ts (furthestIn ts a l) := by
  intro l
  induction l with
  | nil =>
      intro a
      refine ⟨le_refl _, ?_⟩
      intro j hj
      simp at hj
  | cons i rest ih =>
      intro a
      rw [furthestIn_cons]
      by_cases h : nextUseAt ts a < nextUseAt ts i
      · rw [if_pos h]
        refine ⟨le_trans (le_of_lt h) (ih i).1, ?_⟩
        intro j hj
        rcases List.mem_cons.mp hj with rfl | hj2
        · exact (ih j).1
        · exact (ih i).2 j hj2
      · rw [if_neg h]
        refine ⟨(ih a).1, ?_⟩
        intro j hj
        rcases List.mem_cons.mp hj with rfl | hj2
        · exact le_trans (le_of_not_lt h) (ih a).1
        · exact (ih a).2 j hj2

theorem furthestIn_first (ts : TState) :
    ∀ (l : List Nat) (a : Nat),
      furthestIn ts a l = a ∨
      ∃ l1 l2, l = l1 ++ furthestIn ts a l :: l2 ∧
        nextUseAt ts a < nextUseAt ts (furthestIn ts a l) ∧
        ∀ j ∈ l1, nextUseAt ts j < nextUseAt ts (furthestIn ts a l) := by
  intro l
  induction l with
  | nil =>
      intro a
      exact Or.inl rfl
  | cons i rest ih =>
      intro a
      rw [furthestIn_cons]
      by_cases h : nextUseAt ts a < nextUseAt ts i
      · rw [if_pos h]
        rcases ih i with heq | ⟨l1, l2, hsplit, hlt, hall⟩
        · right
          refine ⟨[], rest, ?_, ?_, ?_⟩
          · rw [List.nil_append, heq]
          · rw [heq]
            exact h
          · intro j hj
            simp at hj
        · right
          refine ⟨i :: l1, l2, ?_, lt_trans h hlt, ?_⟩
          · rw [List.cons_append]
            exact congrArg (List.cons i) hsplit
          · intro j hj
            rcases List.mem_cons.mp hj with rfl | hj2
            · exact hlt
            · exact hall j hj2
      · rw [if_neg h]
        rcases ih a with heq | ⟨l1, l2, hsplit, hlt, hall⟩
        · exact Or.inl heq
        · right
          refine ⟨i :: l1, l2, ?_, hlt, ?_⟩
          · rw [List.cons_append]
            exact congrArg (List.cons i) hsplit
          · intro j hj
            rcases List.mem_cons.mp hj with rfl | hj2
            · exact lt_of_le_of_lt (le_of_not_lt h) hlt
            · exact hall j hj2

theorem furthestIndex_spec (ts : TState) (hlen : 0 < ts.regs.length) :
    furthestIndex ts < ts.regs.length
    ∧ (∀ j, j < ts.regs.length → nextUseAt ts j ≤ nextUseAt ts (furthestIndex ts))
    ∧ (∀ j, j < ts.regs.length → nextUseAt ts j = nextUseAt ts (furthestIndex ts) →
        furthestIndex ts ≤ j) := by
  unfold furthestIndex
  have hmax := furthestIn_max ts (List.range ts.regs.length) 0
  have hfirst := furthestIn_first ts (List.range ts.regs.length) 0
  set r := furthestIn ts 0 (List.range ts.regs.length) with hrdef
  rcases hfirst with heq | ⟨l1, l2, hsplit, hlt, hall⟩
  · rw [heq]
    refine ⟨hlen, ?_, ?_⟩
    · intro j hj
      have h2 := hmax.2 j (List.mem_range.mpr hj)
      rw [heq] at h2
      exact h2
    · intro j _ _
      exact Nat.zero_le j
  · have hmem : r ∈ List.range ts.regs.length := by
      rw [hsplit]
      exact List.mem_append_right _ (List.mem_cons_self _ _)
    have hrlt := List.mem_range.mp hmem
    have hlen1 : l1.length ≤ ts.regs.length := by
      have h2 := congrArg List.length hsplit
      simp only [List.length_range, List.length_append, List.length_cons] at h2
      omega
    have hlen2 : l1.length < ts.regs.length := by
      have h2 := congrArg List.length hsplit
      simp only [List.length_range, List.length_append, List.length_cons] at h2
      omega
    have h1 := congrArg (List.take l1.length) hsplit
    rw [List.take_range, List.take_left, Nat.min_eq_left hlen1] at h1
    have hr : r = l1.length := by
      have h3 : (l1 ++ r :: l2).get? l1.length = some r := by
        rw [List.get?_append_right (le_refl _)]
        simp
      rw [← hsplit] at h3
      rw [List.get?_range hlen2] at h3
      exact (Option.some.inj h3).symm
    refine ⟨hrlt, ?_, ?_⟩
    · intro j hj
      exact hmax.2 j (List.mem_range.mpr hj)
    · intro j _ hjeq
      by_contra hc
      push_neg at hc
      have hjl1 : j ∈ l1 := by
        rw [← h1]
        exact List.mem_range.mpr (by omega)
      have h4 := hall j hjl1
      omega

/-- C5: when `AllocateRegister` finds no empty register, the register index it
evicts (`furthestIndex`) carries the maximum `next_use` over the whole file,
ties broken towards the lowest index, and the new value ends up bound to that
register: the file stores it there, its record's `reg` field names it, and the
returned operand is that register. -/
theorem allocateRegister_evicts_max_next_use (flag : Bool) (nid : Nat)
    (ts : TState) (hlen : 0 < ts.regs.length)
    (hfull : ∀ i, i < ts.regs.length → ∃ m, ts.regs.get? i = some (some m))
    (hnew : ∀ i, ts.regs.get? i ≠ some (some nid))
    (hmem : (findVal ts.values nid).isSome = true) :
    (∀ j, j < ts.regs.length →
      nextUseAt ts j ≤ nextUseAt ts (furthestIndex ts))
    ∧ (∀ j, j < ts.regs.length →
        nextUseAt ts j = nextUseAt ts (furthestIndex ts) → furthestIndex ts ≤ j)
    ∧ (allocateRegister flag nid ts).1.regs.get? (furthestIndex ts) =
        some (some nid)
    ∧ (∃ v2, findVal (allocateRegister flag nid ts).1.values nid = some v2 ∧
        v2.reg = some (mapIndexToRegister (furthestIndex ts)))
    ∧ (allocateRegister flag nid ts).2.1 =
        Operand.regOp (mapIndexToRegister (furthestIndex ts)) := by
  obtain ⟨hmlt, hmax, htie⟩ := furthestIndex_spec ts hlen
  have hfind : (List.range ts.regs.length).find?
      (fun i => (ts.regs.get? i) == some none) = none := by
    rw [List.find?_eq_none]
    intro i hi
    obtain ⟨m2, hm2⟩ := hfull i (List.mem_range.mp hi)
    simp only [hm2, beq_iff_eq]
    simp
  have hnone : tryAllocateRegister nid ts = (ts, none) := by
    unfold tryAllocateRegister
    rw [hfind]
  have halloc : allocateRegister flag nid ts =
      forceAllocate flag (mapIndexToRegister (furthestIndex ts)) nid false ts := by
    unfold allocateRegister
    rw [hnone]
  have hcond : ¬ (ts.regs.get?
      (mapRegisterToIndex (mapIndexToRegister (furthestIndex ts))) =
      some (some nid)) := hnew _
  have hforce : forceAllocate flag (mapIndexToRegister (furthestIndex ts)) nid
      false ts =
      ((setRegister (mapIndexToRegister (furthestIndex ts)) nid
         (freeReg flag (mapIndexToRegister (furthestIndex ts)) false ts).1),
       Operand.regOp (mapIndexToRegister (furthestIndex ts)),
       (freeReg flag (mapIndexToRegister (furthestIndex ts)) false ts).2) := by
    unfold forceAllocate
    rw [if_neg hcond]
    rfl
  have hkne : ∀ occ, ts.regs.get? (mapRegisterToIndex
      (mapIndexToRegister (furthestIndex ts))) = some (some occ) → nid ≠ occ := by
    intro occ hocc hcontra
    rw [← hcontra] at hocc
    exact hnew _ hocc
  have hvals : findVal (freeReg flag (mapIndexToRegister (furthestIndex ts))
      false ts).1.values nid = findVal ts.values nid :=
    freeReg_findVal_ne flag _ false ts nid hkne
  obtain ⟨v0, hv0⟩ := Option.isSome_iff_exists.mp hmem
  have hlen2 : furthestIndex ts <
      (freeReg flag (mapIndexToRegister (furthestIndex ts)) false ts).1.regs.length := by
    rw [freeReg_regs_length]
    exact hmlt
  refine ⟨hmax, htie, ?_, ?_, ?_⟩
  · rw [halloc, hforce]
    simp only [setRegister]
    exact List.get?_set_eq_of_lt (some nid) hlen2
  · rw [halloc, hforce]
    simp only [setRegister]
    refine ⟨{ v0 with reg := some (mapIndexToRegister (furthestIndex ts)) }, ?_, rfl⟩
    rw [findVal_updateVal_self, hvals, hv0]
    rfl
  · rw [halloc, hforce]

/-- Witness for `allocateRegister_evicts_max_next_use`: on `stateC5` the
maximum next use 9 is attained at indices 1 and 2, so index 1 is evicted and
the new value 99 is bound to register 1. -/
theorem allocateRegister_evicts_max_next_use_witness :
    (∀ j, j < stateC5.regs.length →
      nextUseAt stateC5 j ≤ nextUseAt stateC5 (furthestIndex stateC5))
    ∧ (∀ j, j < stateC5.regs.length →
        nextUseAt stateC5 j = nextUseAt stateC5 (furthestIndex stateC5) →
        furthestIndex stateC5 ≤ j)
    ∧ (allocateRegister false 99 stateC5).1.regs.get? (furthestIndex stateC5) =
        some (some 99)
    ∧ (∃ v2, findVal (allocateRegister false 99 stateC5).1.values 99 = some v2 ∧
        v2.reg = some (mapIndexToRegister (furthestIndex stateC5)))
    ∧ (allocateRegister false 99 stateC5).2.1 =
        Operand.regOp (mapIndexToRegister (furthestIndex stateC5)) :=
  allocateRegister_evicts_max_next_use false 99 stateC5 (by decide)
    (by
      intro i hi
      have h4 : i < 4 := by simpa [stateC5] using hi
      interval_cases i <;> exact ⟨_, rfl⟩)
    (by
      intro i
      rcases Nat.lt_or_ge i 4 with h | h
      · interval_cases i <;> decide
      · have h2 : stateC5.regs.length ≤ i := by simpa [stateC5] using h
        rw [List.get?_eq_none.mpr h2]
        simp)
    (by decide)

theorem spill_findVal_mono (flag : Bool) (nid : Nat) (ts : TState) (k : Nat)
    (v : VInfo) (hv : findVal ts.values k = some v) :
    ∃ v2, findVal (spill flag nid ts).1.values k = some v2 ∧ v2.reg = v.reg ∧
      (v.slot.isSome = true → v2.slot.isSome = true) := by
  by_cases hk : k = nid
  · subst hk
    obtain ⟨v2, h1, h2, _, _, h5⟩ := spill_findVal_self flag k ts v hv
    exact ⟨v2, h1, h2, fun _ => h5⟩
  · rw [spill_findVal_ne flag nid ts k hk]
    exact ⟨v, hv, rfl, fun h => h⟩

theorem spillRegistersLoop_spec (flag : Bool) (l : List Nat) :
    ∀ ts : TState,
      ((spillRegistersLoop flag l ts).1.regs = ts.regs)
      ∧ (∀ k v, findVal ts.values k = some v →
          ∃ v2, findVal (spillRegistersLoop flag l ts).1.values k = some v2 ∧
            v2.reg = v.reg ∧ (v.slot.isSome = true → v2.slot.isSome = true))
      ∧ (∀ i ∈ l, ∀ nid, ts.regs.get? i = some (some nid) →
          (findVal ts.values nid).isSome = true →
          ∃ v2, findVal (spillRegistersLoop flag l ts).1.values nid = some v2 ∧
            v2.slot.isSome = true) := by
  induction l with
  | nil =>
      intro ts
      refine ⟨rfl, ?_, ?_⟩
      · intro k v hv
        exact ⟨v, hv, rfl, fun h => h⟩
      · intro i hi
        simp at hi
  | cons i rest ih =>
      intro ts
      cases hocc : ts.regs.get? i with
      | none =>
          have heq : spillRegistersLoop flag (i :: rest) ts =
              spillRegistersLoop flag rest ts := by
            simp only [spillRegistersLoop, hocc]
          rw [heq]
          refine ⟨(ih ts).1, (ih ts).2.1, ?_⟩
          intro j hj nid hnid hsome
          rcases List.mem_cons.mp hj with rfl | hj2
          · rw [hocc] at hnid
            exact absurd hnid (by simp)
          · exact (ih ts).2.2 j hj2 nid hnid hsome
      | some o =>
          cases o with
          | none =>
              have heq : spillRegistersLoop flag (i :: rest) ts =
                  spillRegistersLoop flag rest ts := by
                simp only [spillRegistersLoop, hocc]
              rw [heq]
              refine ⟨(ih ts).1, (ih ts).2.1, ?_⟩
              intro j hj nid hnid hsome
              rcases List.mem_cons.mp hj with rfl | hj2
              · rw [hocc] at hnid
                exact absurd hnid (by simp)
              · exact (ih ts).2.2 j hj2 nid hnid hsome
          | some nid =>
              have heq : (spillRegistersLoop flag (i :: rest) ts).1 =
                  (spillRegistersLoop flag rest (spill flag nid ts).1).1 := by
                simp only [spillRegistersLoop, hocc]
              rw [heq]
              have hregs := spill_regs flag nid ts
              have ihp := ih (spill flag nid ts).1
              refine ⟨by rw [ihp.1, hregs], ?_, ?_⟩
              · intro k v hv
                obtain ⟨v2, h1, h2, h3⟩ := spill_findVal_mono flag nid ts k v hv
                obtain ⟨v3, g1, g2, g3⟩ := ihp.2.1 k v2 h1
                exact ⟨v3, g1, g2.trans h2, fun h => g3 (h3 h)⟩
              · intro j hj nid2 hnid2 hsome2
                rcases List.mem_cons.mp hj with rfl | hj2
                · rw [hocc] at hnid2
                  have hn : nid = nid2 := Option.some.inj (Option.some.inj hnid2)
                  subst hn
                  obtain ⟨v0, hv0⟩ := Option.isSome_iff_exists.mp hsome2
                  obtain ⟨v2, h1, _, _, _, h5⟩ := spill_findVal_self flag nid ts v0 hv0
                  obtain ⟨v3, g1, _, g3⟩ := ihp.2.1 nid v2 h1
                  exact ⟨v3, g1, g3 h5⟩
                · obtain ⟨v0, hv0⟩ := Option.isSome_iff_exists.mp hsome2
                  obtain ⟨v2, h1, _, h3⟩ := spill_findVal_mono flag nid ts nid2 v0 hv0
                  refine ihp.2.2 j hj2 nid2 ?_ (by rw [h1]; rfl)
                  rw [hregs]
                  exact hnid2

theorem get?_some_lt {α : Type} (l : List α) (i : Nat) (a : α)
    (h : l.get? i = some a) : i < l.length := by
  by_contra hc
  push_neg at hc
  rw [List.get?_eq_none.mpr hc] at h
  exact Option.noConfusion h

theorem occupantsTracked_spec (ts : TState) (h : occupantsTracked ts = true) :
    ∀ i nid, ts.regs.get? i = some (some nid) →
      (findVal ts.values nid).isSome = true := by
  intro i nid hnid
  have hlt : i < ts.regs.length := get?_some_lt _ _ _ hnid
  have h2 := List.all_eq_true.mp h i (List.mem_range.mpr hlt)
  rw [hnid] at h2
  exact h2

/-- C7 (amended): the `SpillRegisters` step run for a deopting non-call node
spills every record occupying a register (each gains a stack slot) while
leaving the register file unchanged and every record's `reg` field intact; the
node's own result allocation afterwards may still change the file, which is
why the property holds of the spill step rather than of the whole node. -/
theorem spillRegisters_spills_but_keeps_file (flag : Bool) (ts : TState)
    (hwf : occupantsTracked ts = true) :
    ((spillRegisters flag ts).1.regs = ts.regs)
    ∧ (∀ k v, findVal ts.values k = some v →
        ∃ v2, findVal (spillRegisters flag ts).1.values k = some v2 ∧
          v2.reg = v.reg)
    ∧ (∀ i nid, ts.regs.get? i = some (some nid) →
        ∃ v2, findVal (spillRegisters flag ts).1.values nid = some v2 ∧
          v2.slot.isSome = true) := by
  have hs := spillRegistersLoop_spec flag (List.range ts.regs.length) ts
  unfold spillRegisters
  refine ⟨hs.1, ?_, ?_⟩
  · intro k v hv
    obtain ⟨v2, h1, h2, _⟩ := hs.2.1 k v hv
    exact ⟨v2, h1, h2⟩
  · intro i nid hnid
    have hlt : i < ts.regs.length := get?_some_lt _ _ _ hnid
    exact hs.2.2 i (List.mem_range.mpr hlt) nid hnid
      (occupantsTracked_spec ts hwf i nid hnid)

/-- Witness for `spillRegisters_spills_but_keeps_file` on `stateC7`: node 1
occupies register 0 unspilled before the step. -/
theorem spillRegisters_spills_but_keeps_file_witness :
    occupantsTracked stateC7 = true
    ∧ (((spillRegisters false stateC7).1.regs = stateC7.regs)
       ∧ (∀ k v, findVal stateC7.values k = some v →
           ∃ v2, findVal (spillRegisters false stateC7).1.values k = some v2 ∧
             v2.reg = v.reg)
       ∧ (∀ i nid, stateC7.regs.get? i = some (some nid) →
           ∃ v2, findVal (spillRegisters false stateC7).1.values nid = some v2 ∧
             v2.slot.isSome = true)) :=
  ⟨by decide, spillRegisters_spills_but_keeps_file false stateC7 (by decide)⟩

theorem spillAndClearLoop_spec (flag : Bool) (l : List Nat) :
    ∀ ts : TState,
      ((spillAndClearLoop flag l ts).1.regs.length = ts.regs.length)
      ∧ (∀ j, (spillAndClearLoop flag l ts).1.regs.get? j = ts.regs.get? j ∨
          (spillAndClearLoop flag l ts).1.regs.get? j = some none)
      ∧ (∀ j ∈ l, j < ts.regs.length →
          (spillAndClearLoop flag l ts).1.regs.get? j = some none)
      ∧ (∀ k v, findVal ts.values k = some v →
          ∃ v2, findVal (spillAndClearLoop flag l ts).1.values k = some v2 ∧
            (v.slot.isSome = true → v2.slot.isSome = true))
      ∧ (∀ j ∈ l, ∀ nid, ts.regs.get? j = some (some nid) →
          (findVal ts.values nid).isSome = true →
          ∃ v2, findVal (spillAndClearLoop flag l ts).1.values nid = some v2 ∧
            v2.slot.isSome = true) := by
  induction l with
  | nil =>
      intro ts
      refine ⟨rfl, fun j => Or.inl rfl, ?_, ?_, ?_⟩
      · intro j hj
        simp at hj
      · intro k v hv
        exact ⟨v, hv, fun h => h⟩
      · intro j hj
        simp at hj
  | cons i rest ih =>
      intro ts
      cases hocc : ts.regs.get? i with
      | none =>
          have heq : spillAndClearLoop flag (i :: rest) ts =
              spillAndClearLoop flag rest ts := by
            simp only [spillAndClearLoop, hocc]
          rw [heq]
          refine ⟨(ih ts).1, (ih ts).2.1, ?_, (ih ts).2.2.2.1, ?_⟩
          · intro j hj hjlt
            rcases List.mem_cons.mp hj with rfl | hj2
            · have hle : ts.regs.length ≤ j := List.get?_eq_none.mp hocc
              omega
            · exact (ih ts).2.2.1 j hj2 hjlt
          · intro j hj nid hnid hsome
            rcases List.mem_cons.mp hj with rfl | hj2
            · rw [hocc] at hnid
              exact Option.noConfusion hnid
            · exact (ih ts).2.2.2.2 j hj2 nid hnid hsome
      | some o =>
          cases o with
          | none =>
              have heq : spillAndClearLoop flag (i :: rest) ts =
                  spillAndClearLoop flag rest ts := by
                simp only [spillAndClearLoop, hocc]
              rw [heq]
              refine ⟨(ih ts).1, (ih ts).2.1, ?_, (ih ts).2.2.2.1, ?_⟩
              · intro j hj hjlt
                rcases List.mem_cons.mp hj with rfl | hj2
                · rcases (ih ts).2.1 j with h | h
                  · rw [h, hocc]
                  · exact h
                · exact (ih ts).2.2.1 j hj2 hjlt
              · intro j hj nid hnid hsome
                rcases List.mem_cons.mp hj with rfl | hj2
                · rw [hocc] at hnid
                  exact absurd hnid (by simp)
                · exact (ih ts).2.2.2.2 j hj2 nid hnid hsome
          | some nid =>
              have hilt : i < ts.regs.length := get?_some_lt _ _ _ hocc
              have heq : (spillAndClearLoop flag (i :: rest) ts).1 =
                  (spillAndClearLoop flag rest
                    { (spill flag nid ts).1 with
                      values := updateVal (spill flag nid ts).1.values nid
                        (fun v => { v with reg := none }),
                      regs := (spill flag nid ts).1.regs.set i none }).1 := by
                simp only [spillAndClearLoop, hocc]
              set ts2 : TState :=
                { (spill flag nid ts).1 with
                  values := updateVal (spill flag nid ts).1.values nid
                    (fun v => { v with reg := none }),
                  regs := (spill flag nid ts).1.regs.set i none } with hts2
              rw [heq]
              have hregs2 : ts2.regs = ts.regs.set i none := by
                rw [hts2, spill_regs]
              have hlen2 : ts2.regs.length = ts.regs.length := by
                rw [hregs2]
                simp
              have ihp := ih ts2
              have hmono : ∀ k v, findVal ts.values k = some v →
                  ∃ v2, findVal ts2.values k = some v2 ∧
                    (v.slot.isSome = true → v2.slot.isSome = true) := by
                intro k v hv
                obtain ⟨v2, h1, _, h3⟩ := spill_findVal_mono flag nid ts k v hv
                by_cases hk : k = nid
                · subst hk
                  refine ⟨{ v2 with reg := none }, ?_, fun h => h3 h⟩
                  rw [hts2]
                  show findVal (updateVal (spill flag k ts).1.values k
                    (fun v => { v with reg := none })) k = _
                  rw [findVal_updateVal_self, h1]
                  rfl
                · refine ⟨v2, ?_, h3⟩
                  rw [hts2]
                  show findVal (updateVal (spill flag nid ts).1.values nid
                    (fun v => { v with reg := none })) k = _
                  rw [findVal_updateVal_ne _ _ _ _ hk]
                  exact h1
              refine ⟨by rw [ihp.1, hlen2], ?_, ?_, ?_, ?_⟩
              · intro j
                rcases ihp.2.1 j with h | h
                · by_cases hij : j = i
                  · subst hij
                    right
                    rw [h, hregs2]
                    exact List.get?_set_eq_of_lt none hilt
                  · left
                    rw [h, hregs2, List.get?_set_ne none _ (fun hc => hij hc.symm)]
                · exact Or.inr h
              · intro j hj hjlt
                rcases List.mem_cons.mp hj with rfl | hj2
                · rcases ihp.2.1 j with h | h
                  · rw [h, hregs2]
                    exact List.get?_set_eq_of_lt none hilt
                  · exact h
                · exact ihp.2.2.1 j hj2 (by rw [hlen2]; exact hjlt)
              · intro k v hv
                obtain ⟨v2, h1, h3⟩ := hmono k v hv
                obtain ⟨v3, g1, g3⟩ := ihp.2.2.2.1 k v2 h1
                exact ⟨v3, g1, fun h => g3 (h3 h)⟩
              · intro j hj nid2 hnid2 hsome2
                rcases List.mem_cons.mp hj with rfl | hj2
                · rw [hocc] at hnid2
                  have hn : nid = nid2 := Option.some.inj (Option.some.inj hnid2)
                  subst hn
                  obtain ⟨v0, hv0⟩ := Option.isSome_iff_exists.mp hsome2
                  obtain ⟨v2, h1, _, _, _, h5⟩ := spill_findVal_self flag nid ts v0 hv0
                  have h1b : findVal ts2.values nid = some { v2 with reg := none } := by
                    rw [hts2]
                    show findVal (updateVal (spill flag nid ts).1.values nid
                      (fun v => { v with reg := none })) nid = _
                    rw [findVal_updateVal_self, h1]
                    rfl
                  obtain ⟨v3, g1, g3⟩ := ihp.2.2.2.1 nid _ h1b
                  exact ⟨v3, g1, g3 h5⟩
                · by_cases hij : j = i
                  · subst hij
                    rw [hocc] at hnid2
                    have hn : nid = nid2 := Option.some.inj (Option.some.inj hnid2)
                    subst hn
                    obtain ⟨v0, hv0⟩ := Option.isSome_iff_exists.mp hsome2
                    obtain ⟨v2, h1, _, _, _, h5⟩ := spill_findVal_self flag nid ts v0 hv0
                    have h1b : findVal ts2.values nid = some { v2 with reg := none } := by
                      rw [hts2]
                      show findVal (updateVal (spill flag nid ts).1.values nid
                        (fun v => { v with reg := none })) nid = _
                      rw [findVal_updateVal_self, h1]
                      rfl
                    obtain ⟨v3, g1, g3⟩ := ihp.2.2.2.1 nid _ h1b
                    exact ⟨v3, g1, g3 h5⟩
                  · obtain ⟨v0, hv0⟩ := Option.isSome_iff_exists.mp hsome2
                    obtain ⟨v2, h1, h3⟩ := hmono nid2 v0 hv0
                    refine ihp.2.2.2.2 j hj2 nid2 ?_ (by rw [h1]; rfl)
                    rw [hregs2, List.get?_set_ne none _ (fun hc => hij hc.symm)]
                    exact hnid2

/-- C6 (amended): the `SpillAndClearRegisters` step run for a call node leaves
every register file entry empty, and every record occupying a register when
the step runs has been spilled to a stack slot; a value-producing call then
allocates its own result into the emptied file, which is why the
empty-file property holds of the spill-and-clear step rather than of the
whole node. -/
theorem spillAndClear_empties_file_and_spills (flag : Bool) (ts : TState)
    (hwf : occupantsTracked ts = true) :
    (∀ j, j < ts.regs.length →
      (spillAndClearRegisters flag ts).1.regs.get? j = some none)
    ∧ (∀ i nid, ts.regs.get? i = some (some nid) →
        ∃ v2, findVal (spillAndClearRegisters flag ts).1.values nid = some v2 ∧
          v2.slot.isSome = true) := by
  have hs := spillAndClearLoop_spec flag (List.range ts.regs.length) ts
  unfold spillAndClearRegisters
  refine ⟨?_, ?_⟩
  · intro j hj
    exact hs.2.2.1 j (List.mem_range.mpr hj) hj
  · intro i nid hnid
    have hlt : i < ts.regs.length := get?_some_lt _ _ _ hnid
    exact hs.2.2.2.2 i (List.mem_range.mpr hlt) nid hnid
      (occupantsTracked_spec ts hwf i nid hnid)

/-- Witness for `spillAndClear_empties_file_and_spills` on `stateC6`: node 1
occupies register 0 unspilled before the step. -/
theorem spillAndClear_empties_file_and_spills_witness :
    occupantsTracked stateC6 = true
    ∧ ((∀ j, j < stateC6.regs.length →
          (spillAndClearRegisters false stateC6).1.regs.get? j = some none)
       ∧ (∀ i nid, stateC6.regs.get? i = some (some nid) →
           ∃ v2, findVal (spillAndClearRegisters false stateC6).1.values nid =
             some v2 ∧ v2.slot.isSome = true)) :=
  ⟨by decide, spillAndClear_empties_file_and_spills false stateC6 (by decide)⟩

theorem spill_fst (flag : Bool) (nid : Nat) (ts : TState) :
    (spill flag nid ts).1 = (spill false nid ts).1 := by
  unfold spill
  cases hv : findVal ts.values nid with
  | none => rfl
  | some info =>
      by_cases hs : info.slot.isSome = true <;> simp [hs]

theorem freeReg_fst (flag : Bool) (reg : Nat) (tm : Bool) (ts : TState) :
    (freeReg flag reg tm ts).1 = (freeReg false reg tm ts).1 := by
  unfold freeReg
  split
  · rfl
  · rfl
  · rename_i nid heq
    cases hv : findVal ts.values nid with
    | none => simp only [hv]
    | some info =>
        simp only [hv]
        by_cases hr0 : info.reg ≠ some reg
        · simp only [if_pos hr0]
        · simp only [if_neg hr0]
          by_cases hs1 : info.slot.isSome = true
          · simp only [if_pos hs1]
          · simp only [if_neg hs1]
            cases tm with
            | true =>
                simp only [if_pos (rfl : (true : Bool) = true)]
                generalize scanTryMove (ts.regs.set (mapRegisterToIndex reg) none)
                  (mapRegisterToIndex reg) nid
                  (List.range (ts.regs.set (mapRegisterToIndex reg) none).length)
                  none = sr
                cases sr with
                | aliasAt i => rfl
                | lastFree oi =>
                    cases oi with
                    | some i => rfl
                    | none => exact spill_fst flag nid _
            | false =>
                simp only [if_neg (by decide : ¬ (false : Bool) = true)]
                generalize (List.range
                    (ts.regs.set (mapRegisterToIndex reg) none).length).find?
                  (fun i => (ts.regs.set (mapRegisterToIndex reg) none).get? i ==
                    some (some nid)) = fr
                cases fr with
                | some i => rfl
                | none => exact spill_fst flag nid _

theorem forceAllocate_fst (flag : Bool) (reg nid : Nat) (tm : Bool) (ts : TState) :
    (forceAllocate flag reg nid tm ts).1 = (forceAllocate false reg nid tm ts).1 := by
  unfold forceAllocate
  by_cases hc : ts.regs.get? (mapRegisterToIndex reg) = some (some nid)
  · simp only [if_pos hc]
  · simp only [if_neg hc, doAllocate]
    rw [freeReg_fst]

theorem forceAllocate_opnd (flag : Bool) (reg nid : Nat) (tm : Bool) (ts : TState) :
    (forceAllocate flag reg nid tm ts).2.1 = Operand.regOp reg := by
  unfold forceAllocate
  by_cases hc : ts.regs.get? (mapRegisterToIndex reg) = some (some nid)
  · simp only [if_pos hc]
  · simp only [if_neg hc]
    rfl

theorem allocateRegister_fst (flag : Bool) (nid : Nat) (ts : TState) :
    (allocateRegister flag nid ts).1 = (allocateRegister false nid ts).1 ∧
    (allocateRegister flag nid ts).2.1 = (allocateRegister false nid ts).2.1 := by
  unfold allocateRegister
  cases htry : tryAllocateRegister nid ts with
  | mk ts1 o =>
      cases o with
      | some op => exact ⟨rfl, rfl⟩
      | none =>
          refine ⟨forceAllocate_fst flag _ nid false ts, ?_⟩
          rw [forceAllocate_opnd, forceAllocate_opnd]

theorem evictLoop_fst (flag : Bool) :
    ∀ (c fu : Nat) (lg : Int) (ts : TState) (acc : List Nat),
      (evictLoop flag c fu lg ts acc).1 = (evictLoop false c fu lg ts acc).1 ∧
      (evictLoop flag c fu lg ts acc).2.1 = (evictLoop false c fu lg ts acc).2.1 := by
  intro c
  induction c with
  | zero =>
      intro fu lg ts acc
      exact ⟨rfl, rfl⟩
  | succ n ih =>
      intro fu lg ts acc
      unfold evictLoop
      cases hp : (scanFurthest ts fu lg).2 with
      | negSucc m =>
          simp [hp]
      | ofNat m =>
          simp only [hp]
          rw [freeReg_fst]
          exact ⟨(ih _ _ _ _).1, (ih _ _ _ _).2⟩

theorem getFreeRegisters_fst (flag : Bool) (count : Nat) (ts : TState) :
    (getFreeRegisters flag count ts).1 = (getFreeRegisters false count ts).1 ∧
    (getFreeRegisters flag count ts).2.1 = (getFreeRegisters false count ts).2.1 := by
  unfold getFreeRegisters
  by_cases h0 : count = 0
  · simp [h0]
  · simp only [if_neg h0]
    by_cases h1 : (collectFree ts.regs 0 count []).1 = 0
    · simp [h1]
    · simp only [if_neg h1]
      exact ⟨(evictLoop_fst flag _ _ _ _ _).1, (evictLoop_fst flag _ _ _ _ _).2⟩

theorem assignTemporaries_fst (flag : Bool) (nid count : Nat) (ts : TState) :
    (assignTemporaries flag nid count ts).1 = (assignTemporaries false nid count ts).1 := by
  unfold assignTemporaries
  simp only [(getFreeRegisters_fst flag count ts).1,
    (getFreeRegisters_fst flag count ts).2]

theorem spillRegistersLoop_fst (flag : Bool) :
    ∀ (l : List Nat) (ts : TState),
      (spillRegistersLoop flag l ts).1 = (spillRegistersLoop false l ts).1 := by
  intro l
  induction l with
  | nil =>
      intro ts
      rfl
  | cons i rest ih =>
      intro ts
      cases hocc : ts.regs.get? i with
      | none => simp only [spillRegistersLoop, hocc, ih]
      | some o =>
          cases o with
          | none => simp only [spillRegistersLoop, hocc, ih]
          | some nid =>
              simp only [spillRegistersLoop, hocc]
              rw [spill_fst, ih]

theorem spillRegisters_fst (flag : Bool) (ts : TState) :
    (spillRegisters flag ts).1 = (spillRegisters false ts).1 :=
  spillRegistersLoop_fst flag _ ts

theorem spillAndClearLoop_fst (flag : Bool) :
    ∀ (l : List Nat) (ts : TState),
      (spillAndClearLoop flag l ts).1 = (spillAndClearLoop false l ts).1 := by
  intro l
  induction l with
  | nil =>
      intro ts
      rfl
  | cons i rest ih =>
      intro ts
      cases hocc : ts.regs.get? i with
      | none => simp only [spillAndClearLoop, hocc, ih]
      | some o =>
          cases o with
          | none => simp only [spillAndClearLoop, hocc, ih]
          | some nid =>
              simp only [spillAndClearLoop, hocc]
              rw [spill_fst, ih]

theorem spillAndClearRegisters_fst (flag : Bool) (ts : TState) :
    (spillAndClearRegisters flag ts).1 = (spillAndClearRegisters false ts).1 :=
  spillAndClearLoop_fst flag _ ts

theorem assignInputStep_fst (flag : Bool) (inp : InputDesc) (ts : TState) :
    (assignInputStep flag inp ts).1 = (assignInputStep false inp ts).1 ∧
    (assignInputStep flag inp ts).2.1 = (assignInputStep false inp ts).2.1 := by
  unfold assignInputStep
  cases hpol : inp.policy with
  | anyPolicy => exact ⟨rfl, rfl⟩
  | fixedRegPolicy r =>
      constructor <;>
        simp only [forceAllocate_fst flag r inp.nid kDefaultTryMove ts,
          forceAllocate_opnd]
  | mustHaveRegPolicy =>
      generalize (match findVal ts.values inp.nid with
        | some v => allocationOf v
        | none => Operand.slotOp 0) = loc
      cases loc with
      | regOp r => exact ⟨rfl, rfl⟩
      | slotOp idx =>
          constructor <;>
            simp only [(allocateRegister_fst flag inp.nid ts).1,
              (allocateRegister_fst flag inp.nid ts).2]

theorem assignInputs_fst (flag : Bool) :
    ∀ (l : List InputDesc) (ts : TState),
      (assignInputs flag l ts).1 = (assignInputs false l ts).1 ∧
      (assignInputs flag l ts).2.1 = (assignInputs false l ts).2.1 := by
  intro l
  induction l with
  | nil =>
      intro ts
      exact ⟨rfl, rfl⟩
  | cons inp rest ih =>
      intro ts
      unfold assignInputs
      simp only [(assignInputStep_fst flag inp ts).1,
        (assignInputStep_fst flag inp ts).2]
      refine ⟨(ih _).1, ?_⟩
      rw [(ih _).2]

theorem allocateNodeResult_fst (flag : Bool) (nd : NodeDesc)
    (inputOps : List Operand) (ts : TState) :
    (allocateNodeResult flag nd inputOps ts).1 =
      (allocateNodeResult false nd inputOps ts).1 := by
  unfold allocateNodeResult
  cases hres : nd.result with
  | none => rfl
  | some pol =>
      cases pol with
      | fixedSlotPolicy idx => rfl
      | fixedRegResult r =>
          simp only [forceAllocate_fst flag r nd.nid kDefaultTryMove _,
            forceAllocate_opnd]
      | mustHaveRegResult =>
          simp only [(allocateRegister_fst flag nd.nid _).1,
            (allocateRegister_fst flag nd.nid _).2]
      | sameAsInputResult k =>
          cases hk : inputOps.get? k with
          | none =>
              rw [List.get?_eq_getElem?] at hk
              simp [hk]
          | some op =>
              rw [List.get?_eq_getElem?] at hk
              cases op with
              | regOp r =>
                  simp [hk, forceAllocate_fst flag r nd.nid kDefaultTryMove _,
                    forceAllocate_opnd]
              | slotOp idx => simp [hk]

theorem allocateNode_fst (flag : Bool) (nd : NodeDesc) (ts : TState) :
    (allocateNode flag nd ts).1 = (allocateNode false nd ts).1 := by
  unfold allocateNode
  cases hcall : nd.isCall <;> cases hdeopt : nd.canDeopt <;>
    cases hres : nd.result <;>
      simp [hcall, hdeopt, hres, (assignInputs_fst flag nd.inputs ts).1,
        (assignInputs_fst flag nd.inputs ts).2, assignTemporaries_fst,
        spillAndClearRegisters_fst, spillRegisters_fst, allocateNodeResult_fst]

theorem tryAllocateToInput_fst (flag : Bool) (pid : Nat) :
    ∀ (ops : List Operand) (ts : TState),
      (tryAllocateToInput flag pid ops ts).1 =
        (tryAllocateToInput false pid ops ts).1 ∧
      (tryAllocateToInput flag pid ops ts).2.1 =
        (tryAllocateToInput false pid ops ts).2.1 := by
  intro ops
  induction ops with
  | nil =>
      intro ts
      exact ⟨rfl, rfl⟩
  | cons op rest ih =>
      intro ts
      cases op with
      | slotOp idx => exact ih ts
      | regOp r =>
          by_cases hfree : ts.regs.get? (mapRegisterToIndex r) = some none
          · rw [List.get?_eq_getElem?] at hfree
            constructor <;> simp [tryAllocateToInput, hfree]
          · rw [List.get?_eq_getElem?] at hfree
            have hstep : ∀ fl, tryAllocateToInput fl pid
                (Operand.regOp r :: rest) ts = tryAllocateToInput fl pid rest ts := by
              intro fl
              simp [tryAllocateToInput, hfree]
            rw [hstep, hstep]
            exact ih ts

theorem phiPassOne_fst (flag : Bool) :
    ∀ (phis : List PhiDesc) (ts : TState),
      (phiPassOne flag phis ts).1 = (phiPassOne false phis ts).1 ∧
      (phiPassOne flag phis ts).2.1 = (phiPassOne false phis ts).2.1 := by
  intro phis
  induction phis with
  | nil =>
      intro ts
      exact ⟨rfl, rfl⟩
  | cons phi rest ih =>
      intro ts
      have ih1 : ∀ ts2, (phiPassOne flag rest ts2).1 = (phiPassOne false rest ts2).1 :=
        fun ts2 => (ih ts2).1
      have ih2 : ∀ ts2, (phiPassOne flag rest ts2).2.1 =
          (phiPassOne false rest ts2).2.1 :=
        fun ts2 => (ih ts2).2
      have ht := tryAllocateToInput_fst flag phi.pid phi.inputOps
        (makeLive phi.pid phi.resNextUse phi.resLastUse ts)
      constructor <;>
        simp [phiPassOne, ht.1, ht.2, ih1, ih2]

theorem phiPassTwo_fst (flag : Bool) :
    ∀ (l : List (PhiDesc × Bool)) (ts : TState),
      (phiPassTwo flag l ts).1 = (phiPassTwo false l ts).1 ∧
      (phiPassTwo flag l ts).2.1 = (phiPassTwo false l ts).2.1 := by
  intro l
  induction l with
  | nil =>
      intro ts
      exact ⟨rfl, rfl⟩
  | cons pd rest ih =>
      intro ts
      obtain ⟨phi, done⟩ := pd
      have ih1 : ∀ ts2, (phiPassTwo flag rest ts2).1 = (phiPassTwo false rest ts2).1 :=
        fun ts2 => (ih ts2).1
      have ih2 : ∀ ts2, (phiPassTwo flag rest ts2).2.1 =
          (phiPassTwo false rest ts2).2.1 :=
        fun ts2 => (ih ts2).2
      cases done with
      | true =>
          constructor <;> simp [phiPassTwo, ih1, ih2]
      | false =>
          cases htr : tryAllocateRegister phi.pid ts with
          | mk ts1 o =>
              cases o with
              | some op =>
                  constructor <;> simp [phiPassTwo, htr, ih1, ih2]
              | none =>
                  constructor <;> simp [phiPassTwo, htr, ih1, ih2]

theorem phiPassThree_fst (flag : Bool) :
    ∀ (l : List (PhiDesc × Bool)) (ts : TState),
      (phiPassThree flag l ts).1 = (phiPassThree false l ts).1 := by
  intro l
  induction l with
  | nil =>
      intro ts
      rfl
  | cons pd rest ih =>
      intro ts
      obtain ⟨phi, done⟩ := pd
      cases done with
      | true => simp [phiPassThree, ih]
      | false => simp [phiPassThree, ih]

theorem processPhis_fst (flag : Bool) (phis : List PhiDesc) (ts : TState) :
    (processPhis flag phis ts).1 = (processPhis false phis ts).1 := by
  unfold processPhis
  have h1 := phiPassOne_fst flag phis ts
  simp only [h1.1, h1.2]
  have h2 := phiPassTwo_fst flag (phiPassOne false phis ts).2.1
    (phiPassOne false phis ts).1
  simp only [h2.1, h2.2]
  exact phiPassThree_fst flag _ _

theorem allocateControlNode_fst (flag : Bool) (cd : CtrlDesc) (ts : TState) :
    (allocateControlNode flag cd ts).1 = (allocateControlNode false cd ts).1 := by
  unfold allocateControlNode
  cases hcall : cd.isCall <;> cases hdeopt : cd.canDeopt <;>
    simp [hcall, hdeopt, (assignInputs_fst flag cd.inputs ts).1,
      (assignInputs_fst flag cd.inputs ts).2, assignTemporaries_fst,
      spillAndClearRegisters_fst, spillRegisters_fst]

theorem runStep_fst (flag : Bool) (st : StepDesc) (ts : TState) :
    (runStep flag st ts).1 = (runStep false st ts).1 := by
  cases st with
  | restoreStep idx =>
      cases h : ts.mergeTables[idx]? with
      | none => simp [runStep, h]
      | some t =>
          cases t with
          | none => simp [runStep, h]
          | some entries => simp [runStep, h]
  | phiStep phis => exact processPhis_fst flag phis ts
  | nodeStep nd => exact allocateNode_fst flag nd ts
  | ctrlStep cd => exact allocateControlNode_fst flag cd ts

/-- C9: the textual-trace flag has no effect on allocation. Running the
allocator driver over any step list (block-state restores, phi resolution,
node and control-node processing, including the merge tables it writes, the
gap moves and operand decorations it inserts, and the final stack-slot count)
with tracing enabled produces exactly the same state as running it with
tracing disabled; the two runs differ only in the emitted trace. -/
theorem runProg_trace_flag_irrelevant (flag : Bool) (steps : List StepDesc)
    (ts : TState) :
    (runProg flag steps ts).1 = (runProg false steps ts).1 := by
  induction steps generalizing ts with
  | nil => rfl
  | cons st rest ih =>
      show (runProg flag rest (runStep flag st ts).1).1 =
        (runProg false rest (runStep false st ts).1).1
      rw [runStep_fst]
      exact ih _
